import Mathlib

/-! soakfs: a read-only filesystem over a device-partitioned remote store.

A shallow embedding of `src/soakfs_api.hpp` (namespace `soak`: `File`,
`DownloadPolicyCppLib`, `Storage`) and of `src/main.cpp` (class `SoakFS` and the
callbacks around it), followed by theorems about the embedded code.

Conventions of the embedding.

* A `std::string` is a list of bytes, written `Str := List Char`; each `Char`
  stands for the byte with the same code.
* Mutable objects are passed explicitly: a method of `Storage` takes a `Storage`
  and returns the outcome together with the `Storage` it leaves behind, whether
  it returned or threw.
* C++ exceptions are values of `Exn`; an outcome is a `Res`.
* Libraries that are not part of the repository (the HTTP client, libjson,
  basen, boost::filesystem) are the fields of `Env`; theorems hold for every
  `Env` unless they say otherwise.
* Machine integers are `Nat`/`Int` with explicit wrap-around (`wrap64`,
  `to_long`, `to_int`).
-/

namespace Soak

/-- A `std::string`: a sequence of bytes. -/
abbrev Str := List Char

/-! ## Constants -/

/-- The sentinel `const int UNINITIALIZED = -1` (soakfs_api.hpp:45). -/
def UNINITIALIZED : Int := -1

/-- The errno value `ENOENT` (Linux). -/
def ENOENT : Int := 2

/-- The errno value `EACCES` (Linux). -/
def EACCES : Int := 13

/-- The open flag `O_RDONLY` (Linux). -/
def O_RDONLY : Int := 0

/-- The file-type bits `S_IFDIR` (Linux). -/
def S_IFDIR : Nat := 0o040000

/-- The file-type bits `S_IFREG` (Linux). -/
def S_IFREG : Nat := 0o100000

/-! ## Machine integers -/

/-- Conversion of an integer to `unsigned long` / `size_t` (64 bits). -/
def wrap64 (x : Int) : Nat := (x % 2 ^ 64).toNat

/-- Conversion of an integer to `long` / `off_t` (64 bits, two's complement). -/
def to_long (x : Int) : Int :=
  if x % 2 ^ 64 < 2 ^ 63 then x % 2 ^ 64 else x % 2 ^ 64 - 2 ^ 64

/-- Conversion of an integer to `int` (32 bits, two's complement). -/
def to_int (x : Int) : Int :=
  if x % 2 ^ 32 < 2 ^ 31 then x % 2 ^ 32 else x % 2 ^ 32 - 2 ^ 32

/-! ## Data model -/

/-- The record `struct File` (soakfs_api.hpp:47-54); the three numbers are
`unsigned long`. -/
structure File where
  name : Str
  url_component : Str
  size : Nat
  ctime : Nat
  mtime : Nat
deriving DecidableEq, Repr

/-- The typedef `Storage::Dirnames`. -/
abbrev Dirnames := List Str

/-- The typedef `Storage::Files`. -/
abbrev Files := List File

/-- The typedef `SoakFS::LsData`, `std::pair<Dirnames, Files>`. -/
abbrev LsData := Dirnames × Files

/-- The typedef `Storage::NameUrlTuple`. -/
abbrev NameUrlTuple := Str × Str

/-- The typedef `Storage::root_paths_t`, a `std::map`: the entries in increasing
key order. -/
abbrev root_paths_t := List (Str × List NameUrlTuple)

/-- The fields of `struct stat` (Linux x86-64). Each field holds the value of its
machine word read as an unsigned number, so that `memset(stbuf, 0, ...)` is the
all-zero record and an assignment from an `unsigned long` stores the number
itself. -/
structure Stat where
  st_dev : Nat
  st_ino : Nat
  st_nlink : Nat
  st_mode : Nat
  st_uid : Nat
  st_gid : Nat
  st_rdev : Nat
  st_size : Nat
  st_blksize : Nat
  st_blocks : Nat
  st_atime : Nat
  st_mtime : Nat
  st_ctime : Nat
deriving DecidableEq, Repr

/-- The effect of `memset(stbuf, 0, sizeof(struct stat))`. -/
def Stat.zero : Stat :=
  { st_dev := 0, st_ino := 0, st_nlink := 0, st_mode := 0, st_uid := 0, st_gid := 0,
    st_rdev := 0, st_size := 0, st_blksize := 0, st_blocks := 0, st_atime := 0,
    st_mtime := 0, st_ctime := 0 }

/-- What a call can end in other than a return. The first four are C++ exceptions
derived from `std::exception`. `aborted` is a failed `assert` and `undefined` is
an execution without defined behaviour (an end iterator or a null reference is
dereferenced); no handler catches these two. -/
inductive Exn where
  | invalid_argument (what : Str)
  | out_of_range
  | AuthException
  | transport_error
  | aborted
  | undefined
deriving DecidableEq, Repr

/-- The outcome of a call: a returned value or an `Exn`. -/
inductive Res (α : Type) where
  | ok (a : α)
  | throw (e : Exn)
deriving DecidableEq, Repr

/-- Sequencing of outcomes: the first `throw` wins. -/
def Res.bind {α β : Type} (r : Res α) (f : α → Res β) : Res β :=
  match r with
  | .ok a => f a
  | .throw e => .throw e

/-! ## External collaborators -/

/-- The libjson node types used by the code. -/
inductive JSONType where
  | JSON_NULL
  | JSON_STRING
  | JSON_NUMBER
  | JSON_BOOL
  | JSON_ARRAY
  | JSON_NODE
deriving DecidableEq, Repr

/-- A libjson `JSONNode` as the code observes it: `type()`, `name()`,
`as_string()`, `as_int()` and the children it iterates over (none for a node
that is not a container). -/
inductive JSONNode where
  | mk (type : JSONType) (name : Str) (as_string : Str) (as_int : Int)
      (children : List JSONNode)

/-- The accessor `JSONNode::type()`. -/
def JSONNode.type : JSONNode → JSONType
  | .mk t _ _ _ _ => t

/-- The accessor `JSONNode::name()`. -/
def JSONNode.name : JSONNode → Str
  | .mk _ n _ _ _ => n

/-- The accessor `JSONNode::as_string()`. -/
def JSONNode.as_string : JSONNode → Str
  | .mk _ _ s _ _ => s

/-- The accessor `JSONNode::as_int()`. -/
def JSONNode.as_int : JSONNode → Int
  | .mk _ _ _ i _ => i

/-- The children visited by `for (auto i : node)`. -/
def JSONNode.children : JSONNode → List JSONNode
  | .mk _ _ _ _ cs => cs

/-- The accessor `JSONNode::size()`. -/
def JSONNode.size (n : JSONNode) : Nat := n.children.length

/-- The accessor `JSONNode::at(index)`: throws `std::out_of_range` past the end. -/
def JSONNode.at (n : JSONNode) (i : Nat) : Res JSONNode :=
  match n.children.get? i with
  | some c => .ok c
  | none => .throw .out_of_range

/-- The accessor `JSONNode::operator[](name)`: the first child with that name;
libjson does not check that there is one. -/
def JSONNode.index (n : JSONNode) (key : Str) : Res JSONNode :=
  match n.children.find? (fun c => c.name = key) with
  | some c => .ok c
  | none => .throw .undefined

/-- An HTTP request handed to `m_client.get`. -/
structure Request where
  url : Str
  headers : List (Str × Str)
deriving DecidableEq, Repr

/-- An HTTP response: `status()` and `body()`. -/
structure Response where
  status : Nat
  body : Str
deriving DecidableEq, Repr

/-- The libraries and platform choices the repository relies on but does not
contain.

* `http_get log req`: the response of `m_client.get(req)` when `log` lists the
  requests made before it, or `none` when the client throws.
* `parse`: `libjson::parse`, `none` when it throws `std::invalid_argument`.
* `encode_b64`, `encode_b32`: `bn::encode_b64` and `bn::encode_b32` of basen.
* `parent_path`, `filename`: `boost::filesystem::path(p).parent_path().string()`
  and `.filename().string()`.
* `ndebug`: whether the build defines `NDEBUG`, turning `assert` off.
* `lhs_first`: whether the implementation evaluates the map subscript on the
  left (`m_data[d]` in `m_data[d] = m_storage->ls(d)`, `m_root_paths[device]` in
  `m_root_paths[device].push_back(...)`) before the operand on the right; the
  order is unspecified in C++11. It matters only when the right operand throws. -/
structure Env where
  http_get : List Request → Request → Option Response
  parse : Str → Option JSONNode
  encode_b64 : Str → Str
  encode_b32 : Str → Str
  parent_path : Str → Str
  filename : Str → Str
  ndebug : Bool
  lhs_first : Bool

/-! ## Strings and ordered maps -/

/-- The three-iterator `std::equal(first1, last1, first2)` on strings: the range
`xs` is compared with what `ys` starts with. When `ys` is the shorter one the
comparison reaches its terminating NUL, which differs from the byte of `xs`
there (the strings compared are paths and names, free of NUL). -/
def std_equal : Str → Str → Bool
  | [], _ => true
  | _ :: _, [] => false
  | x :: xs, y :: ys => x == y && std_equal xs ys

/-- The search loop of `std::string::find`: the lowest index, counted from `i`,
at which `pat` starts in `s`. -/
def str_find_from (pat : Str) : Str → Nat → Option Nat
  | [], i => if pat = [] then some i else none
  | c :: s, i => if std_equal pat (c :: s) then some i else str_find_from pat s (i + 1)

/-- The member `s.find(pat, pos)`; `none` is `npos`. -/
def str_find (s pat : Str) (pos : Nat) : Option Nat :=
  if pos ≤ s.length then str_find_from pat (s.drop pos) pos else none

/-- The member `s.substr(pos)`: throws `std::out_of_range` when `pos > size()`. -/
def substr (s : Str) (pos : Nat) : Res Str :=
  if pos ≤ s.length then .ok (s.drop pos) else .throw .out_of_range

/-- The order `std::less<std::string>`: lexicographic on the byte values. -/
def str_lt : Str → Str → Bool
  | [], [] => false
  | [], _ :: _ => true
  | _ :: _, [] => false
  | a :: as, b :: bs =>
    if a.toNat < b.toNat then true
    else if b.toNat < a.toNat then false
    else str_lt as bs

/-- The lookup `m.find(k)` of a `std::map<std::string, β>`; `none` is `end()`. -/
def map_find {β : Type} : List (Str × β) → Str → Option β
  | [], _ => none
  | (k1, v1) :: m, k => if k1 = k then some v1 else map_find m k

/-- The effect of `m[k] = v`: the entry is overwritten, or inserted at its place
in key order. -/
def map_set {β : Type} : List (Str × β) → Str → β → List (Str × β)
  | [], k, v => [(k, v)]
  | (k1, v1) :: m, k, v =>
    if k1 = k then (k, v) :: m
    else if str_lt k k1 then (k, v) :: (k1, v1) :: m
    else (k1, v1) :: map_set m k v

/-- The effect of evaluating `m[k]` alone: a missing key gets a
value-initialised entry. -/
def map_touch {β : Type} (dflt : β) (m : List (Str × β)) (k : Str) : List (Str × β) :=
  match map_find m k with
  | some _ => m
  | none => map_set m k dflt

/-- The effect of `m[k].push_back(x)`. -/
def map_push {β : Type} (m : List (Str × List β)) (k : Str) (x : β) : List (Str × List β) :=
  map_set m k ((map_find m k).getD [] ++ [x])

/-! ## Path normalisation and percent-encoding (soakfs_api.hpp:275-312) -/

/-- Modelled from the spec: `boost::regex_replace(s, boost::regex("/+"), "/")`
(Boost.Regex is not part of the repository): every run of separators is
collapsed to one separator. -/
def collapse_separators : Str → Str
  | [] => []
  | c :: s => if c = '/' ∧ s.head? = some '/' then collapse_separators s
              else c :: collapse_separators s

/-- Modelled from the spec: `boost::regex_replace(s, boost::regex("^/"), "")`
(Boost.Regex is not part of the repository): a leading separator is stripped,
`^` being the start of the path. -/
def strip_leading_separator : Str → Str
  | '/' :: s => s
  | s => s

/-- Modelled from the spec: `boost::regex_replace(s, boost::regex("/$"), "")`
(Boost.Regex is not part of the repository): the separator that ends the name
is stripped, `$` being the end of the name. -/
def strip_trailing_separator (s : Str) : Str :=
  if s.getLast? = some '/' then s.dropLast else s

/-- The method `Storage::sanitize_file_path` (soakfs_api.hpp:301-304). -/
def sanitize_file_path (path : Str) : Str :=
  strip_leading_separator (collapse_separators path)

/-- The method `Storage::sanitize_dir_path` (soakfs_api.hpp:306-312). -/
def sanitize_dir_path (path : Str) : Str :=
  let sanitized := collapse_separators path
  if sanitized.length > 0 ∧ sanitized.getLast? ≠ some '/' then sanitized ++ ['/']
  else sanitized

/-- The value `int(c)` of a byte held in a `char` (signed on x86-64 Linux) as
`operator<<` prints it under `std::hex`: the 32-bit two's complement. -/
def hex_operand (c : Char) : Nat :=
  let b := c.toNat % 256
  if b < 128 then b else 2 ^ 32 - 256 + b

/-- The digits written by `buf << std::hex << std::uppercase << n`. -/
def hex_upper (n : Nat) : Str := (Nat.toDigits 16 n).map Char.toUpper

/-- The effect of `std::setw(2) << std::setfill('0')` on the next item: it is
padded on the left to two characters. -/
def setw2_fill0 (s : Str) : Str := List.replicate (2 - s.length) '0' ++ s

/-- The test of the loop body of `pseudo_url_encode`: `isalnum(c)` (C locale) or
one of `/ . _ -`. -/
def url_safe (c : Char) : Bool :=
  c.isAlphanum || c == '/' || c == '.' || c == '_' || c == '-'

/-- The method `Storage::pseudo_url_encode` (soakfs_api.hpp:275-289). -/
def pseudo_url_encode : Str → Str
  | [] => []
  | c :: url =>
    (if url_safe c then [c] else '%' :: setw2_fill0 (hex_upper (hex_operand c)))
      ++ pseudo_url_encode url

/-! ## DownloadPolicyCppLib (soakfs_api.hpp:61-115) -/

/-- A public method of `Storage` being entered, with its arguments. -/
inductive Call where
  | ls (path : Str)
  | download (path : Str) (range : Int × Int)
deriving DecidableEq, Repr

/-- The object `Storage<DownloadPolicyCppLib>`: its three data members and two
records kept for the statements only, which no code reads: `requests`, the
requests handed to `m_client.get` so far, and `calls`, the invocations of the
public methods `ls` and `download` so far (both oldest first). -/
structure Storage where
  m_user_creds : Str
  m_storage_root : Str
  m_root_paths : root_paths_t
  requests : List Request
  calls : List Call
deriving DecidableEq, Repr

/-- The method `DownloadPolicyCppLib::http_auth_creds` (soakfs_api.hpp:100-111);
`case 2` has no `break` and runs on into `case 3`. -/
def http_auth_creds (env : Env) (id pwd : Str) : Str :=
  let b64 := env.encode_b64 (id ++ ":".toList ++ pwd)
  let auth_builder := "Basic ".toList ++ b64
  let auth_builder :=
    if b64.length % 4 = 2 then auth_builder ++ "==".toList ++ "=".toList
    else if b64.length % 4 = 3 then auth_builder ++ "=".toList
    else auth_builder
  auth_builder

/-- The text written by `r << n` for a `long`. -/
def decimal (n : Int) : Str := (toString n).toList

/-- The value of the `Range` header built by `DownloadPolicyCppLib::load`
(soakfs_api.hpp:75-86); `none` when no such header is added. -/
def range_header (range : Int × Int) : Option Str :=
  if range.1 ≠ UNINITIALIZED ∨ range.2 ≠ UNINITIALIZED then
    let r := "bytes=".toList
    let r := if range.1 ≠ UNINITIALIZED then r ++ decimal range.1 else r
    let r := r ++ "-".toList
    let r := if range.2 ≠ UNINITIALIZED then r ++ decimal range.2 else r
    some r
  else none

/-- The request assembled by `DownloadPolicyCppLib::load`. -/
def load_request (st : Storage) (url : Str) (range : Int × Int) : Request :=
  { url := url,
    headers := ("Authorization".toList, st.m_user_creds) ::
      (match range_header range with
       | some r => [("Range".toList, r)]
       | none => []) }

/-- The method `DownloadPolicyCppLib::load` (soakfs_api.hpp:72-92), reached
through both `Storage::load` overloads (soakfs_api.hpp:291-299): the body that
is written to `out`. -/
def load (env : Env) (st : Storage) (url : Str) (range : Int × Int) : Res Str × Storage :=
  let req := load_request st url range
  let st1 := { st with requests := st.requests ++ [req] }
  match env.http_get st.requests req with
  | none => (.throw .transport_error, st1)
  | some resp =>
    if resp.status = 401 then (.throw .AuthException, st1)
    else (.ok resp.body, st1)

/-- The unset range `std::make_pair(UNINITIALIZED, UNINITIALIZED)`. -/
def no_range : Int × Int := (UNINITIALIZED, UNINITIALIZED)

/-! ## Storage (soakfs_api.hpp:117-323) -/

/-- The exception thrown by `libjson::parse` on a text that is not JSON, a
`std::invalid_argument`; no code reads its message. -/
def parse_error : Exn := .invalid_argument []

/-- The method `Storage::init_storage_root` (soakfs_api.hpp:172-177): the value
given to `m_storage_root`. -/
def init_storage_root (env : Env) (id : Str) : Str :=
  "https://spideroak.com/storage/".toList ++ env.encode_b32 id ++ "/".toList

/-- The inner loop of `Storage::init_root_paths` (soakfs_api.hpp:187-196) over
the entries of the `devices` array. -/
def init_root_paths_devices (env : Env) : List JSONNode → root_paths_t → Res Unit × root_paths_t
  | [], m => (.ok (), m)
  | dev :: rest, m =>
    if ¬ env.ndebug ∧ dev.type ≠ .JSON_ARRAY then (.throw .aborted, m)
    else if dev.type = .JSON_ARRAY then
      if ¬ env.ndebug ∧ dev.size ≠ 2 then (.throw .aborted, m)
      else
        match dev.at 0 with
        | .throw e => (.throw e, m)
        | .ok name =>
          let device_name := name.as_string ++ ['/']
          if ¬ env.ndebug ∧ (map_find m device_name).isSome then (.throw .aborted, m)
          else init_root_paths_devices env rest (map_touch [] m device_name)
    else init_root_paths_devices env rest m

/-- The outer loop of `Storage::init_root_paths` (soakfs_api.hpp:182-197) over
the members of the root document. -/
def init_root_paths_members (env : Env) : List JSONNode → root_paths_t → Res Unit × root_paths_t
  | [], m => (.ok (), m)
  | metadata :: rest, m =>
    if metadata.name ≠ "devices".toList then init_root_paths_members env rest m
    else if ¬ env.ndebug ∧ metadata.type ≠ .JSON_ARRAY then (.throw .aborted, m)
    else
      match init_root_paths_devices env metadata.children m with
      | (.throw e, m1) => (.throw e, m1)
      | (.ok _, m1) => init_root_paths_members env rest m1

/-- The method `Storage::init_root_paths` (soakfs_api.hpp:179-198). -/
def init_root_paths (env : Env) (st : Storage) : Res Unit × Storage :=
  match load env st st.m_storage_root no_range with
  | (.throw e, st1) => (.throw e, st1)
  | (.ok data, st1) =>
    match env.parse data with
    | none => (.throw parse_error, st1)
    | some n =>
      let (r, m) := init_root_paths_members env n.children st1.m_root_paths
      (r, { st1 with m_root_paths := m })

/-- The constructor `Storage(id, pwd)` (soakfs_api.hpp:127-131). -/
def Storage.new (env : Env) (id pwd : Str) : Res Unit × Storage :=
  let st : Storage :=
    { m_user_creds := http_auth_creds env id pwd,
      m_storage_root := init_storage_root env id,
      m_root_paths := [],
      requests := [],
      calls := [] }
  init_root_paths env st

/-- The inner loop of `Storage::init_device` (soakfs_api.hpp:213-223) over the
entries of the `dirs` array. -/
def init_device_dirs (env : Env) (device : Str) :
    List JSONNode → root_paths_t → Res Unit × root_paths_t
  | [], m => (.ok (), m)
  | dev :: rest, m =>
    if ¬ env.ndebug ∧ dev.type ≠ .JSON_ARRAY then (.throw .aborted, m)
    else if dev.type = .JSON_ARRAY then
      if ¬ env.ndebug ∧ dev.size ≠ 2 then (.throw .aborted, m)
      else
        match dev.at 0, dev.at 1 with
        | .ok n0, .ok n1 =>
          init_device_dirs env device rest (map_push m device (n0.as_string, n1.as_string))
        | .throw e, _ => (.throw e, if env.lhs_first then map_touch [] m device else m)
        | _, .throw e => (.throw e, if env.lhs_first then map_touch [] m device else m)
    else init_device_dirs env device rest m

/-- The outer loop of `Storage::init_device` (soakfs_api.hpp:208-224) over the
members of the device document. -/
def init_device_members (env : Env) (device : Str) :
    List JSONNode → root_paths_t → Res Unit × root_paths_t
  | [], m => (.ok (), m)
  | metadata :: rest, m =>
    if metadata.name ≠ "dirs".toList then init_device_members env device rest m
    else if ¬ env.ndebug ∧ metadata.type ≠ .JSON_ARRAY then (.throw .aborted, m)
    else
      match init_device_dirs env device metadata.children m with
      | (.throw e, m1) => (.throw e, m1)
      | (.ok _, m1) => init_device_members env device rest m1

/-- The method `Storage::init_device` (soakfs_api.hpp:200-225). -/
def init_device (env : Env) (st : Storage) (dev : Str) : Res Unit × Storage :=
  let device := if dev ≠ [] ∧ dev.getLast? ≠ some '/' then dev ++ ['/'] else dev
  let url := st.m_storage_root ++ pseudo_url_encode device
  match load env st url no_range with
  | (.throw e, st1) => (.throw e, st1)
  | (.ok data, st1) =>
    match env.parse data with
    | none => (.throw parse_error, st1)
    | some n =>
      let (r, m) := init_device_members env device n.children st1.m_root_paths
      (r, { st1 with m_root_paths := m })

/-- The method `Storage::find_device_from_path` (soakfs_api.hpp:263-273): the
key of the first entry, in map order, whose name `path` starts with; `none` when
it throws `std::invalid_argument("incorrect device")`. The caller reads the
entry through the iterator, which in a map is the entry under that key. -/
def find_device_from_path (m : root_paths_t) (path : Str) : Option Str :=
  (m.find? (fun device => std_equal device.1 path)).map (fun device => device.1)

/-- The method `Storage::build_url_for_path` (soakfs_api.hpp:227-261).
`device_dirs` is a reference into the map, so it is read again after
`init_device`. In the `else` branch `path == device_name` is false, so the
`throw` under `dir_iter == device_dirs.end() && path == device_name` is never
taken and an unmatched `dir_iter` is dereferenced. -/
def build_url_for_path (env : Env) (st : Storage) (path : Str) : Res Str × Storage :=
  if path = [] then (.ok st.m_storage_root, st)
  else
    match find_device_from_path st.m_root_paths path with
    | none => (.throw (.invalid_argument "incorrect device".toList), st)
    | some device_name =>
      match (if (map_find st.m_root_paths device_name).getD [] = [] then
               init_device env st device_name
             else (.ok (), st)) with
      | (.throw e, st1) => (.throw e, st1)
      | (.ok _, st1) =>
        let device_dirs := (map_find st1.m_root_paths device_name).getD []
        let encoded_device := pseudo_url_encode device_name
        if path = device_name then (.ok (st1.m_storage_root ++ encoded_device), st1)
        else
          match device_dirs.find? (fun dir =>
              str_find path dir.1 device_name.length = some device_name.length) with
          | none =>
            if path = device_name then (.throw (.invalid_argument "malformed path".toList), st1)
            else (.throw .undefined, st1)
          | some (base_dir_name, base_dir_url) =>
            match substr path (device_name.length + base_dir_name.length + 1) with
            | .throw e => (.throw e, st1)
            | .ok subdir_path =>
              (.ok (st1.m_storage_root ++ encoded_device ++ base_dir_url
                    ++ pseudo_url_encode subdir_path), st1)

/-- The method `Storage::download` with a range (soakfs_api.hpp:138-141); the
overload without one (soakfs_api.hpp:133-136) is the same with `no_range`. The
value is the body written to `out`. -/
def download (env : Env) (st : Storage) (path : Str) (range : Int × Int) : Res Str × Storage :=
  let st0 := { st with calls := st.calls ++ [Call.download path range] }
  let sanitized := sanitize_file_path path
  match build_url_for_path env st0 sanitized with
  | (.throw e, st1) => (.throw e, st1)
  | (.ok url, st1) => load env st1 url range

/-- The body of the `files` loop of `Storage::ls` (soakfs_api.hpp:151-159) for
one entry: the `File` that is pushed. -/
def ls_file (env : Env) (i : JSONNode) : Res File :=
  if ¬ env.ndebug ∧ i.type ≠ .JSON_NODE then .throw .aborted
  else
    (i.index "name".toList).bind fun n =>
    (i.index "size".toList).bind fun s =>
    (i.index "ctime".toList).bind fun c =>
    (i.index "mtime".toList).bind fun m =>
    .ok { name := n.as_string, url_component := [], size := wrap64 s.as_int,
          ctime := wrap64 c.as_int, mtime := wrap64 m.as_int }

/-- The `files` loop of `Storage::ls` (soakfs_api.hpp:151-159). -/
def ls_files (env : Env) : List JSONNode → Files → Res Files
  | [], files => .ok files
  | i :: rest, files => (ls_file env i).bind fun f => ls_files env rest (files ++ [f])

/-- The `dirs`/`devices` loop of `Storage::ls` (soakfs_api.hpp:161-164). -/
def ls_dirs (env : Env) : List JSONNode → Dirnames → Res Dirnames
  | [], dirs => .ok dirs
  | i :: rest, dirs =>
    if ¬ env.ndebug ∧ i.type ≠ .JSON_ARRAY then .throw .aborted
    else (i.at 0).bind fun n => ls_dirs env rest (dirs ++ [n.as_string])

/-- The loop of `Storage::ls` over the members of the document
(soakfs_api.hpp:149-166). -/
def ls_members (env : Env) : List JSONNode → LsData → Res LsData
  | [], data => .ok data
  | items :: rest, (dirs, files) =>
    if items.name = "files".toList then
      (ls_files env items.children files).bind fun files1 => ls_members env rest (dirs, files1)
    else if items.name = "dirs".toList ∨ items.name = "devices".toList then
      (ls_dirs env items.children dirs).bind fun dirs1 => ls_members env rest (dirs1, files)
    else ls_members env rest (dirs, files)

/-- The method `Storage::ls` (soakfs_api.hpp:143-168). -/
def ls (env : Env) (st : Storage) (path : Str) : Res LsData × Storage :=
  let st0 := { st with calls := st.calls ++ [Call.ls path] }
  let sanitized := sanitize_dir_path path
  match build_url_for_path env st0 sanitized with
  | (.throw e, st1) => (.throw e, st1)
  | (.ok url, st1) =>
    match load env st1 url no_range with
    | (.throw e, st2) => (.throw e, st2)
    | (.ok data, st2) =>
      match env.parse data with
      | none => (.throw parse_error, st2)
      | some n => (ls_members env n.children ([], []), st2)

/-! ## SoakFS (main.cpp:35-173) -/

/-- The object `SoakFS`: the owned `Storage` and the directory cache `m_data`. -/
structure SoakFS where
  m_storage : Storage
  m_data : List (Str × LsData)
deriving DecidableEq, Repr

/-- The constructor `SoakFS(user, password)` (main.cpp:42-45). -/
def SoakFS.new (env : Env) (user password : Str) : Res Unit × SoakFS :=
  let (r, st) := Storage.new env user password
  (r, { m_storage := st, m_data := [] })

/-- The key under which `get_dir_data` caches `dir` (main.cpp:153-157): `dir`
without its leading separator. -/
def cache_key (dir : Str) : Str :=
  if dir ≠ [] ∧ dir.head? = some '/' then dir.drop 1 else dir

/-- The method `SoakFS::get_dir_data` (main.cpp:152-166). -/
def get_dir_data (env : Env) (fs : SoakFS) (dir : Str) : Res LsData × SoakFS :=
  let d := cache_key dir
  match map_find fs.m_data d with
  | some data => (.ok data, fs)
  | none =>
    match ls env fs.m_storage d with
    | (.ok data, st) => (.ok data, { m_storage := st, m_data := map_set fs.m_data d data })
    | (.throw e, st) =>
      (.throw e, { m_storage := st,
                   m_data := if env.lhs_first then map_set fs.m_data d ([], []) else fs.m_data })

/-- The method `SoakFS::get_file_data` (main.cpp:134-150). -/
def get_file_data (env : Env) (fs : SoakFS) (file : Str) : Res File × SoakFS :=
  let parent := env.parent_path file
  match get_dir_data env fs parent with
  | (.throw e, fs1) => (.throw e, fs1)
  | (.ok data, fs1) =>
    let files := data.2
    let filename := env.filename file
    match files.find? (fun f => filename = f.name) with
    | none => (.throw (.invalid_argument (file ++ " not found".toList)), fs1)
    | some f => (.ok f, fs1)

/-- The range `[filename.begin(), filename_end)` of `getattr` (main.cpp:66-69):
`filename` without a final separator. -/
def filename_stem (filename : Str) : Str :=
  if filename ≠ [] ∧ filename.getLast? = some '/' then filename.dropLast else filename

/-- The descriptor written for a directory (main.cpp:51-55 and 75-76). -/
def dir_stat : Stat := { Stat.zero with st_mode := S_IFDIR ||| 0o755, st_nlink := 1 }

/-- The descriptor written for the file entry `f` (main.cpp:87-91). -/
def file_stat (f : File) : Stat :=
  { Stat.zero with st_mode := S_IFREG ||| 0o444, st_nlink := 1, st_size := f.size,
                   st_ctime := f.ctime, st_mtime := f.mtime }

/-- The method `SoakFS::getattr` (main.cpp:47-95): the returned `int`, the
contents of `*stbuf` and the object afterwards. -/
def getattr (env : Env) (fs : SoakFS) (path_string : Str) : Res Int × Stat × SoakFS :=
  if path_string = "/".toList then (.ok 0, dir_stat, fs)
  else
    let parent := env.parent_path path_string
    let filename := env.filename path_string
    match get_dir_data env fs parent with
    | (.throw e, fs1) => (.throw e, Stat.zero, fs1)
    | (.ok data, fs1) =>
      let dirs := data.1
      let stem := filename_stem filename
      match dirs.find? (fun curr_name => std_equal stem curr_name) with
      | some _ => (.ok 0, dir_stat, fs1)
      | none =>
        let files := data.2
        match files.find? (fun f => filename = f.name) with
        | some f => (.ok 0, file_stat f, fs1)
        | none => (.ok (-ENOENT), Stat.zero, fs1)

/-- One call `filler(buf, name, NULL, 0)`: the name is appended to the buffer. -/
def filler (buf : List Str) (name : Str) : List Str := buf ++ [name]

/-- The method `SoakFS::readdir` (main.cpp:97-110): the returned `int`, the names
handed to `filler` in order, and the object afterwards. -/
def readdir (env : Env) (fs : SoakFS) (path : Str) : Res Int × List Str × SoakFS :=
  let buf := filler [] ".".toList
  let buf := filler buf "..".toList
  match get_dir_data env fs path with
  | (.throw e, fs1) => (.throw e, buf, fs1)
  | (.ok data, fs1) =>
    let buf := data.1.foldl (fun b dir => filler b (strip_trailing_separator dir)) buf
    let buf := data.2.foldl (fun b file => filler b file.name) buf
    (.ok 0, buf, fs1)

/-- The method `SoakFS::open` (main.cpp:112-117); `flags` is `fi->flags`. -/
def open_ (fs : SoakFS) (_path : Str) (flags : Int) : Int × SoakFS :=
  if Int.land flags 3 ≠ O_RDONLY then (-EACCES, fs) else (0, fs)

/-- The handler `catch (const std::exception &e) { return -1; }` of `read`
(main.cpp:127-129): the four exceptions are caught, a failed `assert` and an
undefined execution are not. -/
def catch_std_exception : Exn → Res Int
  | .aborted => .throw .aborted
  | .undefined => .throw .undefined
  | _ => .ok (-1)

/-- The value of `read_size` in `SoakFS::read` (main.cpp:122):
`std::min(requested_size, f.size - offset)` is computed in `unsigned long`, with
`offset` converted to it, and the result is converted to `long`. -/
def read_size (requested_size : Nat) (size : Nat) (offset : Int) : Int :=
  to_long ((min requested_size (wrap64 ((size : Int) - offset)) : Nat) : Int)

/-- The range pair `std::make_pair(offset, offset + read_size - 1)` of
`SoakFS::read` (main.cpp:125), a pair of `long`. -/
def read_range (requested_size : Nat) (size : Nat) (offset : Int) : Int × Int :=
  (offset, to_long (offset + read_size requested_size size offset - 1))

/-- The method `SoakFS::read` (main.cpp:119-130): `requested_size` is a `size_t`,
`offset` an `off_t`, and the value returned is `read_size` converted to `int`. -/
def read (env : Env) (fs : SoakFS) (path : Str) (requested_size : Nat) (offset : Int) :
    Res Int × SoakFS :=
  match get_file_data env fs path with
  | (.throw e, fs1) => (catch_std_exception e, fs1)
  | (.ok f, fs1) =>
    match download env fs1.m_storage path (read_range requested_size f.size offset) with
    | (.throw e, st) => (catch_std_exception e, { fs1 with m_storage := st })
    | (.ok _, st) =>
      (.ok (to_int (read_size requested_size f.size offset)), { fs1 with m_storage := st })

/-- The handler `catch (...) { return -1; }` of the callbacks (main.cpp:180-214). -/
def catch_all : Res Int → Res Int
  | .ok r => .ok r
  | .throw .aborted => .throw .aborted
  | .throw .undefined => .throw .undefined
  | .throw _ => .ok (-1)

/-- The callback `soakfs_getattr` (main.cpp:180-187). -/
def soakfs_getattr (env : Env) (fs : SoakFS) (path : Str) : Res Int × Stat × SoakFS :=
  let (r, stbuf, fs1) := getattr env fs path
  (catch_all r, stbuf, fs1)

/-- The callback `soakfs_readdir` (main.cpp:189-196). -/
def soakfs_readdir (env : Env) (fs : SoakFS) (path : Str) : Res Int × List Str × SoakFS :=
  let (r, buf, fs1) := readdir env fs path
  (catch_all r, buf, fs1)

/-- The callback `soakfs_open` (main.cpp:198-205). -/
def soakfs_open (fs : SoakFS) (path : Str) (flags : Int) : Int × SoakFS :=
  open_ fs path flags

/-- The callback `soakfs_read` (main.cpp:207-214). -/
def soakfs_read (env : Env) (fs : SoakFS) (path : Str) (requested_size : Nat) (offset : Int) :
    Res Int × SoakFS :=
  let (r, fs1) := read env fs path requested_size offset
  (catch_all r, fs1)

/-! ## The scenario of the specification (section 8)

One account with the device `MyComputer`, whose root directory `Documents` has
the URL component `abc123/` and holds the single file `report.pdf`. The
transport and the parser are canned; the encoders of basen are stand-ins. -/

/-- A JSON string value. -/
def json_string (name v : Str) : JSONNode := .mk .JSON_STRING name v 0 []

/-- A JSON number. -/
def json_number (name : Str) (n : Int) : JSONNode := .mk .JSON_NUMBER name (decimal n) n []

/-- A JSON array. -/
def json_array (name : Str) (items : List JSONNode) : JSONNode := .mk .JSON_ARRAY name [] 0 items

/-- A JSON object. -/
def json_node (name : Str) (members : List JSONNode) : JSONNode := .mk .JSON_NODE name [] 0 members

/-- The storage root of the scenario's account. -/
def scenario_root : Str := "https://spideroak.com/storage/OVZWK4Q/".toList

/-- The canned transport: the root document, the device document, the listing
of `Documents` and the content of `report.pdf`; 404 for any other URL. -/
def scenario_http_get (_log : List Request) (req : Request) : Option Response :=
  if req.url = scenario_root then some { status := 200, body := "root".toList }
  else if req.url = scenario_root ++ "MyComputer/".toList then
    some { status := 200, body := "device".toList }
  else if req.url = scenario_root ++ "MyComputer/abc123/".toList then
    some { status := 200, body := "listing".toList }
  else if req.url = scenario_root ++ "MyComputer/abc123/report.pdf".toList then
    some { status := 206, body := "%PDF".toList }
  else some { status := 404, body := [] }

/-- The canned parser: the three documents of the scenario, the listing with a
file of the given size and times. -/
def scenario_parse (size ctime mtime : Int) (text : Str) : Option JSONNode :=
  if text = "root".toList then
    some (json_node [] [json_array "devices".toList
      [json_array [] [json_string [] "MyComputer".toList, json_string [] "MyComputer/".toList]]])
  else if text = "device".toList then
    some (json_node [] [json_array "dirs".toList
      [json_array [] [json_string [] "Documents".toList, json_string [] "abc123/".toList]]])
  else if text = "listing".toList then
    some (json_node [] [json_array "files".toList
      [json_node [] [json_string "name".toList "report.pdf".toList,
                     json_number "size".toList size,
                     json_number "ctime".toList ctime,
                     json_number "mtime".toList mtime]]])
  else none

/-- A stand-in for `boost::filesystem::path::parent_path` on the paths of the
scenario: what precedes the last separator, or the root directory `/` itself
when nothing does. -/
def scenario_parent_path (p : Str) : Str :=
  let parent := (p.reverse.dropWhile (fun c => c != '/')).drop 1
  if parent = [] ∧ p.head? = some '/' then ['/'] else parent.reverse

/-- A stand-in for `boost::filesystem::path::filename` on the paths of the
scenario: what follows the last separator. -/
def scenario_filename (p : Str) : Str :=
  (p.reverse.takeWhile (fun c => c != '/')).reverse

/-- The environment of the scenario, for a `report.pdf` of the given size and
times. -/
def scenario_env (size ctime mtime : Int) : Env :=
  { http_get := scenario_http_get,
    parse := scenario_parse size ctime mtime,
    encode_b64 := fun _ => "dXNlcjpwYXNz".toList,
    encode_b32 := fun _ => "OVZWK4Q".toList,
    parent_path := scenario_parent_path,
    filename := scenario_filename,
    ndebug := false,
    lhs_first := false }

/-- The `Storage` of the scenario once the device has been discovered. -/
def scenario_storage : Storage :=
  { m_user_creds := "Basic dXNlcjpwYXNz".toList,
    m_storage_root := scenario_root,
    m_root_paths := [("MyComputer/".toList, [("Documents".toList, "abc123/".toList)])],
    requests := [],
    calls := [] }

/-- The file entry `report.pdf` of the scenario. -/
def scenario_file (size ctime mtime : Nat) : File :=
  { name := "report.pdf".toList, url_component := [], size := size, ctime := ctime,
    mtime := mtime }

/-- A `SoakFS` of the scenario whose cache holds the listings of `MyComputer`
and of `MyComputer/Documents`. -/
def scenario_fs (size ctime mtime : Nat) : SoakFS :=
  { m_storage := scenario_storage,
    m_data := [("MyComputer".toList, (["Documents".toList], [])),
               ("MyComputer/Documents".toList, ([], [scenario_file size ctime mtime]))] }

/-- The `SoakFS` of the scenario right after its construction: the device is
registered but not discovered, and nothing is cached. -/
def scenario_fresh : SoakFS :=
  (SoakFS.new (scenario_env 1024 5 6) "user".toList "pass".toList).2

/-! ## Callers -/

/-- A caller that asks `get_dir_data` for each directory of a list in turn and
collects the listings; `none` as soon as one call throws. -/
def get_listings (env : Env) : SoakFS → List Str → Option (List LsData × SoakFS)
  | fs, [] => some ([], fs)
  | fs, dir :: dirs =>
    match get_dir_data env fs dir with
    | (.ok data, fs1) =>
      match get_listings env fs1 dirs with
      | some (datas, fs2) => some (data :: datas, fs2)
      | none => none
    | (.throw _, _) => none

/-- The base64 alphabet. -/
def base64_alphabet : Str :=
  "ABCDEFGHIJKLMNOPQRSTUVWXYZabcdefghijklmnopqrstuvwxyz0123456789+/".toList

/-- The base64 digit of a number below 64. -/
def base64_digit (n : Nat) : Char := base64_alphabet.getD n 'A'

/-- A stand-in for `bn::encode_b64` of basen: base64 without the `=` padding,
which `http_auth_creds` adds itself. -/
def base64_unpadded : Str → Str
  | a :: b :: c :: rest =>
    let n := a.toNat * 65536 + b.toNat * 256 + c.toNat
    [base64_digit (n / 262144), base64_digit (n / 4096 % 64), base64_digit (n / 64 % 64),
     base64_digit (n % 64)] ++ base64_unpadded rest
  | [a, b] =>
    let n := a.toNat * 1024 + b.toNat * 4
    [base64_digit (n / 4096), base64_digit (n / 64 % 64), base64_digit (n % 64)]
  | [a] =>
    let n := a.toNat * 16
    [base64_digit (n / 64), base64_digit (n % 64)]
  | [] => []

/-- The environment of the scenario with `base64_unpadded` for `bn::encode_b64`. -/
def base64_env : Env := { scenario_env 1024 5 6 with encode_b64 := base64_unpadded }

/-- The `SoakFS` constructed in the scenario for the user `user`, when
`report.pdf` has size 1024 and the given times. -/
def scenario_mount (ctime mtime : Int) : SoakFS :=
  (SoakFS.new (scenario_env 1024 ctime mtime) "user".toList "pass".toList).2

/-! ## Relations used in the statements -/

/-- The device table `m2` differs from `m1` at most in the entry of `device`:
every other name has the same root map, no name is lost, and no name other than
`device` is gained. -/
def only_changes (device : Str) (m1 m2 : root_paths_t) : Prop :=
  (∀ k, k ≠ device → map_find m2 k = map_find m1 k)
  ∧ (∀ k, k ∈ m1.map Prod.fst → k ∈ m2.map Prod.fst)
  ∧ (∀ k, k ∈ m2.map Prod.fst → k = device ∨ k ∈ m1.map Prod.fst)

/-! ## Lemmas on strings and maps -/

theorem std_equal_iff_isPrefix (xs ys : Str) : std_equal xs ys = true ↔ xs <+: ys := by
  induction xs generalizing ys with
  | nil => simp [std_equal]
  | cons x xs ih =>
    cases ys with
    | nil => simp [std_equal]
    | cons y ys => simp [std_equal, ih, List.cons_prefix_cons]

theorem find?_first_match {α : Type} (p : α → Bool) (pre post : List α) (a : α)
    (hpre : ∀ b ∈ pre, p b = false) (ha : p a = true) :
    (pre ++ a :: post).find? p = some a := by
  induction pre with
  | nil => simp [ha]
  | cons b pre ih =>
    have hb : p b = false := hpre b (by simp)
    have := ih (fun c hc => hpre c (by simp [hc]))
    simp [List.find?, hb, this]

theorem foldl_filler {α : Type} (f : α → Str) (xs : List α) (buf : List Str) :
    xs.foldl (fun b x => filler b (f x)) buf = buf ++ xs.map f := by
  induction xs generalizing buf with
  | nil => simp
  | cons x xs ih =>
    rw [List.foldl_cons, ih]
    simp [filler]

/-! ## getattr, readdir, open -/

/-- C1. `SoakFS::getattr`, file case: for a path other than `/` whose parent
listing is obtained, when `std_equal` accepts no subdirectory name and `f` is the
first file entry of the listing whose name is the leaf, `getattr` returns 0 and
writes a regular-file descriptor: mode `S_IFREG | 0444`, link count 1, size,
ctime and mtime those of `f`, every other field zero. -/
theorem getattr_file_entry (env : Env) (fs fs1 : SoakFS) (path : Str) (data : LsData)
    (pre post : Files) (f : File)
    (hroot : path ≠ "/".toList)
    (hls : get_dir_data env fs (env.parent_path path) = (.ok data, fs1))
    (hdir : ∀ d ∈ data.1, std_equal (filename_stem (env.filename path)) d = false)
    (hsplit : data.2 = pre ++ f :: post)
    (hpre : ∀ g ∈ pre, g.name ≠ env.filename path)
    (hname : f.name = env.filename path) :
    getattr env fs path =
      (.ok 0,
       { Stat.zero with st_mode := S_IFREG ||| 0o444, st_nlink := 1, st_size := f.size,
                        st_ctime := f.ctime, st_mtime := f.mtime },
       fs1) := by
  have hnodir : data.1.find? (fun curr_name =>
      std_equal (filename_stem (env.filename path)) curr_name) = none := by
    rw [List.find?_eq_none]
    intro d hd
    simp [hdir d hd]
  have hfile : data.2.find? (fun g => decide (env.filename path = g.name)) = some f := by
    rw [hsplit]
    apply find?_first_match
    · intro g hg
      have := hpre g hg
      simp only [decide_eq_false_iff_not]
      exact fun h => this h.symm
    · simp [hname]
  simp only [getattr, if_neg hroot, hls, hnodir, hfile, file_stat]

/-- The theorem `getattr_file_entry` at `report.pdf` of the scenario. -/
theorem getattr_file_entry_witness :
    getattr (scenario_env 1024 5 6) (scenario_fs 1024 5 6)
        "/MyComputer/Documents/report.pdf".toList =
      (.ok 0,
       { Stat.zero with st_mode := S_IFREG ||| 0o444, st_nlink := 1, st_size := 1024,
                        st_ctime := 5, st_mtime := 6 },
       scenario_fs 1024 5 6) :=
  getattr_file_entry (scenario_env 1024 5 6) (scenario_fs 1024 5 6) (scenario_fs 1024 5 6)
    "/MyComputer/Documents/report.pdf".toList ([], [scenario_file 1024 5 6]) [] []
    (scenario_file 1024 5 6) (by decide) (by decide) (by decide) (by decide) (by decide)
    (by decide)

/-- C3. `SoakFS::readdir`: when the listing of the path is obtained, the names
handed to the filler are `.`, `..`, every subdirectory name of the listing with
one trailing separator removed, in listing order, then every file name, in
listing order; the call returns 0. -/
theorem readdir_names (env : Env) (fs fs1 : SoakFS) (path : Str) (data : LsData)
    (hls : get_dir_data env fs path = (.ok data, fs1)) :
    readdir env fs path =
      (.ok 0,
       [".".toList, "..".toList] ++ data.1.map strip_trailing_separator
         ++ data.2.map (fun file => file.name),
       fs1) := by
  simp only [readdir, hls, foldl_filler]
  simp [filler]

/-- The theorem `readdir_names` at `MyComputer` of the scenario. -/
theorem readdir_names_witness :
    readdir (scenario_env 1024 5 6) (scenario_fs 1024 5 6) "/MyComputer".toList =
      (.ok 0, [".".toList, "..".toList, "Documents".toList], scenario_fs 1024 5 6) :=
  readdir_names (scenario_env 1024 5 6) (scenario_fs 1024 5 6) (scenario_fs 1024 5 6)
    "/MyComputer".toList (["Documents".toList], []) (by decide)

/-- C6. `SoakFS::open`: for every path and flags the result is `-EACCES` exactly
when the access mode `flags & 3` is not `O_RDONLY`, and 0 otherwise; the object,
with its `Storage`, its record of Storage calls and its directory cache, is left
as it was. -/
theorem open_read_only (fs : SoakFS) (path : Str) (flags : Int) :
    ((open_ fs path flags).1 = -EACCES ↔ Int.land flags 3 ≠ O_RDONLY)
    ∧ (Int.land flags 3 = O_RDONLY → (open_ fs path flags).1 = 0)
    ∧ (open_ fs path flags).2 = fs := by
  unfold open_
  by_cases h : Int.land flags 3 = O_RDONLY
  · simp [h, EACCES]
  · simp [h]

/-- C7. `SoakFS::getattr` on the root: whatever the state of the adapter,
`getattr("/")` returns 0 with mode `S_IFDIR | 0755`, link count 1 and every
other field zero, and leaves the object as it was: no Storage call is recorded,
no request is made and the directory cache is unchanged. -/
theorem getattr_root (env : Env) (fs : SoakFS) :
    getattr env fs "/".toList =
      (.ok 0,
       { st_dev := 0, st_ino := 0, st_nlink := 1, st_mode := S_IFDIR ||| 0o755, st_uid := 0,
         st_gid := 0, st_rdev := 0, st_size := 0, st_blksize := 0, st_blocks := 0,
         st_atime := 0, st_mtime := 0, st_ctime := 0 },
       fs) := by
  simp [getattr, dir_stat, Stat.zero]

/-- C2. `SoakFS::getattr` on a leaf that is a proper prefix of a subdirectory
name: in the scenario the parent listing of `/MyComputer/Doc` has the single
subdirectory `Documents` and no file, the leaf `Doc` equals no subdirectory name
(with or without a trailing separator on either side) and no file name, yet
`getattr` returns 0 with a directory descriptor instead of `-ENOENT`. -/
theorem getattr_proper_prefix_is_directory :
    get_dir_data (scenario_env 1024 5 6) (scenario_fs 1024 5 6)
        ((scenario_env 1024 5 6).parent_path "/MyComputer/Doc".toList)
      = (.ok (["Documents".toList], []), scenario_fs 1024 5 6)
    ∧ (scenario_env 1024 5 6).filename "/MyComputer/Doc".toList = "Doc".toList
    ∧ (∀ d ∈ ["Documents".toList],
        "Doc".toList ≠ d ∧ "Doc".toList ++ ['/'] ≠ d ∧ "Doc".toList ≠ d ++ ['/'])
    ∧ getattr (scenario_env 1024 5 6) (scenario_fs 1024 5 6) "/MyComputer/Doc".toList
      = (.ok 0, { Stat.zero with st_mode := S_IFDIR ||| 0o755, st_nlink := 1 },
         scenario_fs 1024 5 6) := by
  decide

/-- What `SoakFS::getattr` does return `-ENOENT` for: when the parent listing of
a path other than `/` is obtained, the result is `-ENOENT` exactly when no
subdirectory name starts with the leaf (taken without a final separator) and no
file entry is named as the leaf. -/
theorem getattr_enoent_iff (env : Env) (fs fs1 : SoakFS) (path : Str) (data : LsData)
    (hroot : path ≠ "/".toList)
    (hls : get_dir_data env fs (env.parent_path path) = (.ok data, fs1)) :
    (getattr env fs path).1 = .ok (-ENOENT) ↔
      (∀ d ∈ data.1, ¬ filename_stem (env.filename path) <+: d)
      ∧ (∀ f ∈ data.2, f.name ≠ env.filename path) := by
  simp only [getattr, if_neg hroot, hls]
  cases hd : data.1.find? (fun curr_name =>
      std_equal (filename_stem (env.filename path)) curr_name) with
  | some d =>
    have hmem := List.mem_of_find?_eq_some hd
    have hp := List.find?_some hd
    rw [std_equal_iff_isPrefix] at hp
    simp only [Res.ok.injEq, ENOENT]
    constructor
    · intro h
      omega
    · intro h
      exact absurd hp (h.1 d hmem)
  | none =>
    rw [List.find?_eq_none] at hd
    have hdirs : ∀ d ∈ data.1, ¬ filename_stem (env.filename path) <+: d := by
      intro d hmem hp
      exact hd d hmem ((std_equal_iff_isPrefix _ _).2 hp)
    cases hf : data.2.find? (fun f => decide (env.filename path = f.name)) with
    | some f =>
      have hmem := List.mem_of_find?_eq_some hf
      have hp := List.find?_some hf
      simp only [decide_eq_true_eq] at hp
      simp only [Res.ok.injEq, ENOENT]
      constructor
      · intro h
        omega
      · intro h
        exact absurd hp.symm (h.2 f hmem)
    | none =>
      rw [List.find?_eq_none] at hf
      simp only [true_iff]
      refine ⟨hdirs, ?_⟩
      intro f hmem hname
      exact hf f hmem (by simp [hname])

/-! ## The record of Storage calls -/

theorem load_calls (env : Env) (st : Storage) (url : Str) (range : Int × Int) :
    (load env st url range).2.calls = st.calls := by
  simp only [load]
  cases env.http_get st.requests (load_request st url range) with
  | none => rfl
  | some resp => by_cases h : resp.status = 401 <;> simp [h]

theorem init_device_calls (env : Env) (st : Storage) (dev : Str) :
    (init_device env st dev).2.calls = st.calls := by
  simp only [init_device]
  generalize (if dev ≠ [] ∧ dev.getLast? ≠ some '/' then dev ++ ['/'] else dev) = device
  have h := load_calls env st (st.m_storage_root ++ pseudo_url_encode device) no_range
  rcases hl : load env st (st.m_storage_root ++ pseudo_url_encode device) no_range with ⟨r, st1⟩
  rw [hl] at h
  cases r with
  | throw e => exact h
  | ok data =>
    simp only
    cases env.parse data with
    | none => exact h
    | some n => exact h

theorem build_url_for_path_calls (env : Env) (st : Storage) (path : Str) :
    (build_url_for_path env st path).2.calls = st.calls := by
  simp only [build_url_for_path]
  by_cases hp : path = []
  · simp [hp]
  · rw [if_neg hp]
    cases find_device_from_path st.m_root_paths path with
    | none => rfl
    | some device_name =>
      simp only
      have hst1 : (if (map_find st.m_root_paths device_name).getD [] = [] then
          init_device env st device_name else (Res.ok (), st)).2.calls = st.calls := by
        split
        · exact init_device_calls env st device_name
        · rfl
      rcases hi : (if (map_find st.m_root_paths device_name).getD [] = [] then
          init_device env st device_name else (Res.ok (), st)) with ⟨r, st1⟩
      rw [hi] at hst1
      cases r with
      | throw e => exact hst1
      | ok u =>
        simp only
        by_cases hd : path = device_name
        · rw [if_pos hd]
          exact hst1
        · rw [if_neg hd]
          cases List.find? (fun dir => decide (str_find path dir.1 device_name.length
              = some device_name.length)) ((map_find st1.m_root_paths device_name).getD []) with
          | none =>
            simp only [if_neg hd]
            exact hst1
          | some dir =>
            simp only
            cases substr path (device_name.length + dir.1.length + 1) with
            | throw e => exact hst1
            | ok subdir_path => exact hst1

theorem download_calls (env : Env) (st : Storage) (path : Str) (range : Int × Int) :
    (download env st path range).2.calls = st.calls ++ [Call.download path range] := by
  simp only [download]
  have h := build_url_for_path_calls env
    { st with calls := st.calls ++ [Call.download path range] } (sanitize_file_path path)
  rcases hb : build_url_for_path env
    { st with calls := st.calls ++ [Call.download path range] } (sanitize_file_path path)
    with ⟨r, st1⟩
  rw [hb] at h
  cases r with
  | throw e => exact h
  | ok url =>
    simp only
    rw [load_calls]
    exact h

theorem ls_calls (env : Env) (st : Storage) (path : Str) :
    (ls env st path).2.calls = st.calls ++ [Call.ls path] := by
  simp only [ls]
  have h := build_url_for_path_calls env
    { st with calls := st.calls ++ [Call.ls path] } (sanitize_dir_path path)
  rcases hb : build_url_for_path env
    { st with calls := st.calls ++ [Call.ls path] } (sanitize_dir_path path) with ⟨r, st1⟩
  rw [hb] at h
  cases r with
  | throw e => exact h
  | ok url =>
    simp only
    have h2 := load_calls env st1 url no_range
    rcases hl : load env st1 url no_range with ⟨r2, st2⟩
    rw [hl] at h2
    cases r2 with
    | throw e => exact h2.trans h
    | ok data =>
      simp only
      cases env.parse data with
      | none => exact h2.trans h
      | some n => exact h2.trans h

/-! ## read -/

theorem wrap64_of_bounds (x : Int) (h0 : 0 ≤ x) (h1 : x < 2 ^ 64) : (wrap64 x : Int) = x := by
  unfold wrap64
  omega

theorem to_long_of_bounds (x : Int) (h0 : -2 ^ 63 ≤ x) (h1 : x < 2 ^ 63) : to_long x = x := by
  unfold to_long
  split <;> omega

theorem to_int_of_bounds (x : Int) (h0 : -2 ^ 31 ≤ x) (h1 : x < 2 ^ 31) : to_int x = x := by
  unfold to_int
  split <;> omega

/-- Inside the file, and with a count that fits a `long`, `read_size` is
`min(requested_size, size - offset)`. -/
theorem read_size_in_range (requested_size size : Nat) (offset : Int)
    (hsize : size < 2 ^ 64) (h0 : 0 ≤ offset) (hlt : offset < size)
    (hfit : min (requested_size : Int) (size - offset) < 2 ^ 63) :
    read_size requested_size size offset = min (requested_size : Int) (size - offset) := by
  unfold read_size
  have hw := wrap64_of_bounds ((size : Int) - offset) (by omega) (by omega)
  have hcast : ((min requested_size (wrap64 ((size : Int) - offset)) : Nat) : Int)
      = min (requested_size : Int) (size - offset) := by
    rw [Nat.cast_min, hw]
  rw [hcast]
  exact to_long_of_bounds _ (by omega) hfit

/-- Past the end of the file `size - offset` wraps around in `unsigned long`, and
`read_size` is the whole `requested_size`. -/
theorem read_size_past_end (requested_size size : Nat) (offset : Int)
    (hreq : requested_size < 2 ^ 63) (hlt : (size : Int) < offset) (hoff : offset < 2 ^ 63) :
    read_size requested_size size offset = requested_size := by
  unfold read_size
  have hw : (wrap64 ((size : Int) - offset) : Int) = size - offset + 2 ^ 64 := by
    unfold wrap64
    omega
  have hmin : min requested_size (wrap64 ((size : Int) - offset)) = requested_size := by
    apply Nat.min_eq_left
    omega
  rw [hmin]
  exact to_long_of_bounds _ (by omega) (by omega)

/-- C4, as amended. `SoakFS::read`, in-range case: for a file entry `f` of size
`s` and an offset with `0 <= offset < s`, when `readSize = min(bufferCapacity,
s - offset)` fits the `int` that `read` returns and `offset + readSize` fits a
`long`, `read` makes exactly one Storage call, `download` with the inclusive
range pair `(offset, offset + readSize - 1)`, and, when that call returns,
returns `readSize`. -/
theorem read_in_range (env : Env) (fs fs1 : SoakFS) (path : Str) (f : File)
    (requested_size : Nat) (offset : Int)
    (hf : get_file_data env fs path = (.ok f, fs1))
    (hsize : f.size < 2 ^ 64) (h0 : 0 ≤ offset) (hlt : offset < f.size)
    (hint : min (requested_size : Int) (f.size - offset) < 2 ^ 31)
    (hlong : offset + min (requested_size : Int) (f.size - offset) < 2 ^ 63) :
    (read env fs path requested_size offset).2.m_storage.calls =
        fs1.m_storage.calls ++
          [Call.download path
            (offset, offset + min (requested_size : Int) (f.size - offset) - 1)]
    ∧ ∀ body st,
        download env fs1.m_storage path
            (offset, offset + min (requested_size : Int) (f.size - offset) - 1) = (.ok body, st) →
        read env fs path requested_size offset =
          (.ok (min (requested_size : Int) (f.size - offset)), { fs1 with m_storage := st }) := by
  have hrs := read_size_in_range requested_size f.size offset hsize h0 hlt (by omega)
  have hrange : read_range requested_size f.size offset =
      (offset, offset + min (requested_size : Int) (f.size - offset) - 1) := by
    unfold read_range
    rw [hrs, to_long_of_bounds _ (by omega) (by omega)]
  have hret : to_int (read_size requested_size f.size offset) =
      min (requested_size : Int) (f.size - offset) := by
    rw [hrs]
    exact to_int_of_bounds _ (by omega) hint
  have hcalls := download_calls env fs1.m_storage path
    (offset, offset + min (requested_size : Int) (f.size - offset) - 1)
  simp only [read, hf, hrange, hret]
  rcases hd : download env fs1.m_storage path
    (offset, offset + min (requested_size : Int) (f.size - offset) - 1) with ⟨r, st⟩
  rw [hd] at hcalls
  cases r with
  | throw e =>
    refine ⟨hcalls, ?_⟩
    intro body st2 h
    simp at h
  | ok body =>
    refine ⟨hcalls, ?_⟩
    intro body2 st2 h
    simp only [Prod.mk.injEq, Res.ok.injEq] at h
    rw [h.2]

/-- The theorem `read_in_range` at the example of the specification: size 1200,
offset 1024 and capacity 512 give the range `(1024, 1199)` and the value 176. -/
theorem read_in_range_witness :
    (read (scenario_env 1200 5 6) (scenario_fs 1200 5 6)
        "/MyComputer/Documents/report.pdf".toList 512 1024).1 = .ok 176
    ∧ (read (scenario_env 1200 5 6) (scenario_fs 1200 5 6)
        "/MyComputer/Documents/report.pdf".toList 512 1024).2.m_storage.calls =
      [Call.download "/MyComputer/Documents/report.pdf".toList (1024, 1199)] := by
  obtain ⟨hcalls, hret⟩ := read_in_range (scenario_env 1200 5 6) (scenario_fs 1200 5 6)
    (scenario_fs 1200 5 6) "/MyComputer/Documents/report.pdf".toList (scenario_file 1200 5 6)
    512 1024 (by decide) (by decide) (by decide) (by decide) (by decide) (by decide)
  refine ⟨?_, hcalls⟩
  rw [hret "%PDF".toList
    (download (scenario_env 1200 5 6) (scenario_fs 1200 5 6).m_storage
      "/MyComputer/Documents/report.pdf".toList (1024, 1199)).2 (by decide)]
  decide

/-- C4, as stated, fails. With a file of size `2^31`, offset 0 and capacity
`2^31` the entry is found and `0 <= offset < s`, but `read` returns
`-2147483648`, not `readSize = 2^31`: the `long` is narrowed to the `int` of the
return type. And with a file of size `2^63 + 10`, offset `2^63 - 1` and capacity
100, where `readSize = 11`, the end of the range handed to `download` is not
`offset + readSize - 1`, which is no `long`: the sum wraps around to
`-2^63 + 9`. -/
theorem read_in_range_counterexample :
    (get_file_data (scenario_env 1200 5 6) (scenario_fs (2 ^ 31) 5 6)
        "/MyComputer/Documents/report.pdf".toList
      = (.ok (scenario_file (2 ^ 31) 5 6), scenario_fs (2 ^ 31) 5 6)
     ∧ (0 : Int) < (scenario_file (2 ^ 31) 5 6).size
     ∧ (read (scenario_env 1200 5 6) (scenario_fs (2 ^ 31) 5 6)
        "/MyComputer/Documents/report.pdf".toList (2 ^ 31) 0).1 = .ok (-2147483648)
     ∧ (read (scenario_env 1200 5 6) (scenario_fs (2 ^ 31) 5 6)
        "/MyComputer/Documents/report.pdf".toList (2 ^ 31) 0).1
       ≠ .ok (min ((2 ^ 31 : Nat) : Int) (((scenario_file (2 ^ 31) 5 6).size : Int) - 0)))
    ∧ (get_file_data (scenario_env 1200 5 6) (scenario_fs (2 ^ 63 + 10) 5 6)
        "/MyComputer/Documents/report.pdf".toList
      = (.ok (scenario_file (2 ^ 63 + 10) 5 6), scenario_fs (2 ^ 63 + 10) 5 6)
     ∧ (2 ^ 63 - 1 : Int) < (scenario_file (2 ^ 63 + 10) 5 6).size
     ∧ min ((100 : Nat) : Int) (((scenario_file (2 ^ 63 + 10) 5 6).size : Int) - (2 ^ 63 - 1)) = 11
     ∧ (read (scenario_env 1200 5 6) (scenario_fs (2 ^ 63 + 10) 5 6)
        "/MyComputer/Documents/report.pdf".toList 100 (2 ^ 63 - 1)).2.m_storage.calls =
       [Call.download "/MyComputer/Documents/report.pdf".toList
         (2 ^ 63 - 1, -2 ^ 63 + 9)]) := by
  decide

/-- C5. `SoakFS::read` past the end: in the scenario with a file of size 1200,
`read` at offset 1300 with capacity 512 finds the entry, asks `download` for the
range `(1300, 1811)` and returns 512, not 0: `f.size - offset` is computed in
`unsigned long` and wraps around to `2^64 - 100`, so that `read_size` is 512. -/
theorem read_past_end_returns_requested_size :
    get_file_data (scenario_env 1200 5 6) (scenario_fs 1200 5 6)
        "/MyComputer/Documents/report.pdf".toList
      = (.ok (scenario_file 1200 5 6), scenario_fs 1200 5 6)
    ∧ wrap64 (((scenario_file 1200 5 6).size : Int) - 1300) = 2 ^ 64 - 100
    ∧ read_size 512 (scenario_file 1200 5 6).size 1300 = 512
    ∧ (read (scenario_env 1200 5 6) (scenario_fs 1200 5 6)
        "/MyComputer/Documents/report.pdf".toList 512 1300).1 = .ok 512
    ∧ (read (scenario_env 1200 5 6) (scenario_fs 1200 5 6)
        "/MyComputer/Documents/report.pdf".toList 512 1300).1 ≠ .ok 0
    ∧ (read (scenario_env 1200 5 6) (scenario_fs 1200 5 6)
        "/MyComputer/Documents/report.pdf".toList 512 1300).2.m_storage.calls =
      [Call.download "/MyComputer/Documents/report.pdf".toList (1300, 1811)] := by
  decide

/-- What `SoakFS::read` does past the end: for an offset beyond the size of the
entry and a capacity that fits an `int`, `read` asks `download` for
`(offset, offset + requested_size - 1)` and, when that call returns, returns
the whole `requested_size`. -/
theorem read_past_end (env : Env) (fs fs1 : SoakFS) (path : Str) (f : File)
    (requested_size : Nat) (offset : Int)
    (hf : get_file_data env fs path = (.ok f, fs1))
    (hlt : (f.size : Int) < offset) (hint : requested_size < 2 ^ 31)
    (hlong : offset + requested_size < 2 ^ 63) :
    (read env fs path requested_size offset).2.m_storage.calls =
        fs1.m_storage.calls ++
          [Call.download path (offset, offset + requested_size - 1)]
    ∧ ∀ body st,
        download env fs1.m_storage path (offset, offset + requested_size - 1) = (.ok body, st) →
        read env fs path requested_size offset =
          (.ok requested_size, { fs1 with m_storage := st }) := by
  have hrs := read_size_past_end requested_size f.size offset (by omega) hlt (by omega)
  have hrange : read_range requested_size f.size offset =
      (offset, offset + requested_size - 1) := by
    unfold read_range
    rw [hrs, to_long_of_bounds _ (by omega) (by omega)]
  have hret : to_int (read_size requested_size f.size offset) = requested_size := by
    rw [hrs]
    exact to_int_of_bounds _ (by omega) (by omega)
  have hcalls := download_calls env fs1.m_storage path (offset, offset + requested_size - 1)
  simp only [read, hf, hrange, hret]
  rcases hd : download env fs1.m_storage path (offset, offset + requested_size - 1) with ⟨r, st⟩
  rw [hd] at hcalls
  cases r with
  | throw e =>
    refine ⟨hcalls, ?_⟩
    intro body st2 h
    simp at h
  | ok body =>
    refine ⟨hcalls, ?_⟩
    intro body2 st2 h
    simp only [Prod.mk.injEq, Res.ok.injEq] at h
    rw [h.2]

/-! ## The directory cache -/

theorem map_find_map_set_self {β : Type} (m : List (Str × β)) (k : Str) (v : β) :
    map_find (map_set m k v) k = some v := by
  induction m with
  | nil => simp [map_set, map_find]
  | cons e m ih =>
    obtain ⟨k1, v1⟩ := e
    unfold map_set
    by_cases h1 : k1 = k
    · simp [h1, map_find]
    · by_cases h2 : str_lt k k1 = true
      · simp [h1, h2, map_find]
      · simp [h1, h2, map_find, ih]

theorem map_find_map_set_ne {β : Type} (m : List (Str × β)) (k k2 : Str) (v : β)
    (hne : k2 ≠ k) : map_find (map_set m k v) k2 = map_find m k2 := by
  induction m with
  | nil => simp [map_set, map_find, Ne.symm hne]
  | cons e m ih =>
    obtain ⟨k1, v1⟩ := e
    unfold map_set
    by_cases h1 : k1 = k
    · subst h1
      simp [map_find, Ne.symm hne]
    · by_cases h2 : str_lt k k1 = true
      · simp [h1, h2, map_find, Ne.symm hne]
      · simp [h1, h2, map_find, ih]

theorem map_find_map_set_of_some {β : Type} (m : List (Str × β)) (k k2 : Str) (v w : β)
    (hnone : map_find m k = none) (hsome : map_find m k2 = some w) :
    map_find (map_set m k v) k2 = some w := by
  have hne : k2 ≠ k := by
    intro h
    rw [h, hnone] at hsome
    cases hsome
  rw [map_find_map_set_ne m k k2 v hne, hsome]

/-- A hit: `get_dir_data` returns the cached listing and changes nothing. -/
theorem get_dir_data_hit (env : Env) (fs : SoakFS) (dir : Str) (data : LsData)
    (h : map_find fs.m_data (cache_key dir) = some data) :
    get_dir_data env fs dir = (.ok data, fs) := by
  simp only [get_dir_data, h]

/-- A miss that succeeds: `Storage::ls` was called once, with the key, and its
listing is now cached under the key. -/
theorem get_dir_data_miss (env : Env) (fs fs1 : SoakFS) (dir : Str) (data : LsData)
    (h : map_find fs.m_data (cache_key dir) = none)
    (hok : get_dir_data env fs dir = (.ok data, fs1)) :
    fs1.m_storage.calls = fs.m_storage.calls ++ [Call.ls (cache_key dir)]
    ∧ fs1.m_data = map_set fs.m_data (cache_key dir) data := by
  simp only [get_dir_data, h] at hok
  have hc := ls_calls env fs.m_storage (cache_key dir)
  rcases hl : ls env fs.m_storage (cache_key dir) with ⟨r, st⟩
  rw [hl] at hok hc
  cases r with
  | throw e => simp at hok
  | ok data2 =>
    simp only [Prod.mk.injEq, Res.ok.injEq] at hok
    obtain ⟨hdata, hfs⟩ := hok
    subst hfs
    subst hdata
    exact ⟨hc, rfl⟩

/-- No call of `get_dir_data`, whatever its outcome, removes or changes an entry
of the cache. -/
theorem get_dir_data_keeps (env : Env) (fs : SoakFS) (dir : Str) (k : Str) (v : LsData)
    (h : map_find fs.m_data k = some v) :
    map_find (get_dir_data env fs dir).2.m_data k = some v := by
  simp only [get_dir_data]
  cases hc : map_find fs.m_data (cache_key dir) with
  | some data => exact h
  | none =>
    simp only
    rcases hl : ls env fs.m_storage (cache_key dir) with ⟨r, st⟩
    cases r with
    | ok data => exact map_find_map_set_of_some _ _ _ _ _ hc h
    | throw e =>
      simp only
      split
      · exact map_find_map_set_of_some _ _ _ _ _ hc h
      · exact h

/-- After a successful `get_dir_data` the listing returned is the one cached
under the key. -/
theorem get_dir_data_cached (env : Env) (fs fs1 : SoakFS) (dir : Str) (data : LsData)
    (hok : get_dir_data env fs dir = (.ok data, fs1)) :
    map_find fs1.m_data (cache_key dir) = some data := by
  cases hc : map_find fs.m_data (cache_key dir) with
  | some data2 =>
    rw [get_dir_data_hit env fs dir data2 hc] at hok
    simp only [Prod.mk.injEq, Res.ok.injEq] at hok
    rw [← hok.2, ← hok.1]
    exact hc
  | none =>
    rw [(get_dir_data_miss env fs fs1 dir data hc hok).2]
    exact map_find_map_set_self _ _ _

/-- A run of successful `get_dir_data` calls: the `ls` calls it adds are for
pairwise distinct keys, none of them cached at the start and each the key of a
directory asked for; the entries cached at the start are kept; and every
listing returned is the one cached under its key at the end. -/
theorem get_listings_spec (env : Env) (dirs : List Str) :
    ∀ (fs fs2 : SoakFS) (datas : List LsData),
      get_listings env fs dirs = some (datas, fs2) →
      (∃ added : List Str,
          fs2.m_storage.calls = fs.m_storage.calls ++ added.map Call.ls
          ∧ added.Nodup
          ∧ (∀ k ∈ added, map_find fs.m_data k = none)
          ∧ (∀ k ∈ added, k ∈ dirs.map cache_key))
      ∧ (∀ k v, map_find fs.m_data k = some v → map_find fs2.m_data k = some v)
      ∧ List.Forall₂ (fun dir data => map_find fs2.m_data (cache_key dir) = some data)
          dirs datas := by
  induction dirs with
  | nil =>
    intro fs fs2 datas h
    simp only [get_listings, Option.some.injEq, Prod.mk.injEq] at h
    obtain ⟨hd, hfs⟩ := h
    subst hd
    subst hfs
    exact ⟨⟨[], by simp⟩, fun _ _ h => h, List.Forall₂.nil⟩
  | cons dir dirs ih =>
    intro fs fs2 datas h
    simp only [get_listings] at h
    rcases hg : get_dir_data env fs dir with ⟨r, fs1⟩
    rw [hg] at h
    cases r with
    | throw e => simp at h
    | ok data =>
      simp only at h
      cases hrest : get_listings env fs1 dirs with
      | none => simp [hrest] at h
      | some p =>
        obtain ⟨datas1, fs3⟩ := p
        simp only [hrest, Option.some.injEq, Prod.mk.injEq] at h
        obtain ⟨hd, hfs⟩ := h
        subst hd
        subst hfs
        obtain ⟨⟨added, hcalls, hnodup, hnone, hkeys⟩, hkeep, hall⟩ := ih fs1 fs3 datas1 hrest
        have hkeep1 : ∀ k v, map_find fs.m_data k = some v → map_find fs1.m_data k = some v := by
          intro k v hk
          have := get_dir_data_keeps env fs dir k v hk
          rw [hg] at this
          exact this
        have hcached := get_dir_data_cached env fs fs1 dir data hg
        refine ⟨?_, fun k v hk => hkeep k v (hkeep1 k v hk),
          List.Forall₂.cons (hkeep _ _ hcached) hall⟩
        have hnone1 : ∀ k ∈ added, map_find fs.m_data k = none := by
          intro k hk
          cases hfk : map_find fs.m_data k with
          | none => rfl
          | some v =>
            have := hkeep1 k v hfk
            rw [hnone k hk] at this
            cases this
        cases hc : map_find fs.m_data (cache_key dir) with
        | some data2 =>
          rw [get_dir_data_hit env fs dir data2 hc] at hg
          simp only [Prod.mk.injEq, Res.ok.injEq] at hg
          rw [← hg.2] at hcalls
          exact ⟨added, hcalls, hnodup, hnone1, fun k hk => by
            simp only [List.map_cons, List.mem_cons]
            exact Or.inr (hkeys k hk)⟩
        | none =>
          obtain ⟨hc1, _⟩ := get_dir_data_miss env fs fs1 dir data hc hg
          refine ⟨cache_key dir :: added, ?_, ?_, ?_, ?_⟩
          · rw [hcalls, hc1]
            simp
          · rw [List.nodup_cons]
            refine ⟨?_, hnodup⟩
            intro hmem
            have := hnone _ hmem
            rw [hcached] at this
            cases this
          · intro k hk
            rcases List.mem_cons.1 hk with h1 | h1
            · rw [h1]
              exact hc
            · exact hnone1 k h1
          · intro k hk
            simp only [List.map_cons, List.mem_cons]
            rcases List.mem_cons.1 hk with h1 | h1
            · exact Or.inl h1
            · exact Or.inr (hkeys k h1)

/-- C8. Directory cache memoization (`get_dir_data`), from any state of the
adapter. (1) Over any sequence of successful calls, `Storage::ls` is invoked at
most once per cache key: the invocations added are for pairwise distinct keys,
each the key of a directory asked for and none cached beforehand. (2) Two
successive calls for one directory: the second returns the same listing and
changes nothing, so that it invokes nothing and requests nothing, and the two
together invoke `Storage::ls` exactly once when the key was not cached before
and not at all when it was. (3) No call, whatever its outcome, removes or
changes an entry that is cached. -/
theorem get_dir_data_memoizes (env : Env) (fs : SoakFS) :
    (∀ dirs datas fs2, get_listings env fs dirs = some (datas, fs2) →
      ∃ added : List Str,
        fs2.m_storage.calls = fs.m_storage.calls ++ added.map Call.ls
        ∧ added.Nodup
        ∧ (∀ k ∈ added, k ∈ dirs.map cache_key)
        ∧ (∀ k ∈ added, map_find fs.m_data k = none))
    ∧ (∀ dir data fs1, get_dir_data env fs dir = (.ok data, fs1) →
        get_dir_data env fs1 dir = (.ok data, fs1)
        ∧ (map_find fs.m_data (cache_key dir) = none →
            fs1.m_storage.calls = fs.m_storage.calls ++ [Call.ls (cache_key dir)])
        ∧ (map_find fs.m_data (cache_key dir) ≠ none → fs1 = fs))
    ∧ (∀ dir k v, map_find fs.m_data k = some v →
        map_find (get_dir_data env fs dir).2.m_data k = some v) := by
  refine ⟨?_, ?_, ?_⟩
  · intro dirs datas fs2 h
    obtain ⟨⟨added, h1, h2, h3, h4⟩, _, _⟩ := get_listings_spec env dirs fs fs2 datas h
    exact ⟨added, h1, h2, h4, h3⟩
  · intro dir data fs1 h
    refine ⟨get_dir_data_hit env fs1 dir data (get_dir_data_cached env fs fs1 dir data h), ?_, ?_⟩
    · intro hnone
      exact (get_dir_data_miss env fs fs1 dir data hnone h).1
    · intro hsome
      cases hc : map_find fs.m_data (cache_key dir) with
      | none => exact absurd hc hsome
      | some data2 =>
        rw [get_dir_data_hit env fs dir data2 hc] at h
        simp only [Prod.mk.injEq, Res.ok.injEq] at h
        exact h.2.symm
  · intro dir k v h
    exact get_dir_data_keeps env fs dir k v h

/-- The theorem `get_dir_data_memoizes` on the freshly constructed adapter of the
scenario, asked twice for `/MyComputer/Documents`. -/
theorem get_dir_data_memoizes_witness :
    get_dir_data (scenario_env 1024 5 6)
        (get_dir_data (scenario_env 1024 5 6) scenario_fresh "/MyComputer/Documents".toList).2
        "/MyComputer/Documents".toList
      = (.ok ([], [scenario_file 1024 5 6]),
         (get_dir_data (scenario_env 1024 5 6) scenario_fresh "/MyComputer/Documents".toList).2)
    ∧ (get_dir_data (scenario_env 1024 5 6) scenario_fresh
        "/MyComputer/Documents".toList).2.m_storage.calls
      = scenario_fresh.m_storage.calls ++ [Call.ls "MyComputer/Documents".toList] :=
  have h := (get_dir_data_memoizes (scenario_env 1024 5 6) scenario_fresh).2.1
    "/MyComputer/Documents".toList ([], [scenario_file 1024 5 6])
    (get_dir_data (scenario_env 1024 5 6) scenario_fresh "/MyComputer/Documents".toList).2
    (by decide)
  ⟨h.1, h.2.1 (by decide)⟩

/-! ## build_url_for_path -/

theorem str_find_from_ge (pat : Str) (s : Str) (i k : Nat)
    (h : str_find_from pat s i = some k) : i ≤ k := by
  induction s generalizing i with
  | nil =>
    simp only [str_find_from] at h
    split at h
    · simp only [Option.some.injEq] at h
      omega
    · cases h
  | cons c s ih =>
    simp only [str_find_from] at h
    split at h
    · simp only [Option.some.injEq] at h
      omega
    · have := ih (i + 1) h
      omega

theorem str_find_from_eq_start (pat : Str) (s : Str) (i : Nat) :
    str_find_from pat s i = some i ↔ pat <+: s := by
  cases s with
  | nil =>
    simp only [str_find_from, List.prefix_nil]
    constructor
    · intro h
      by_contra hne
      simp [hne] at h
    · intro h
      simp [h]
  | cons c s =>
    simp only [str_find_from]
    by_cases he : std_equal pat (c :: s) = true
    · simp only [he, if_true, true_iff]
      exact (std_equal_iff_isPrefix _ _).1 he
    · simp only [he]
      constructor
      · intro h
        have := str_find_from_ge pat s (i + 1) i (by simpa using h)
        omega
      · intro h
        exact absurd ((std_equal_iff_isPrefix _ _).2 h) he

/-- The test of `build_url_for_path` for a root directory,
`path.find(name, pos) == pos`, holds exactly when `name` occurs in `path`
immediately after the first `pos` bytes. -/
theorem str_find_eq_pos (path pat : Str) (pos : Nat) :
    str_find path pat pos = some pos ↔ pos ≤ path.length ∧ pat <+: path.drop pos := by
  unfold str_find
  by_cases h : pos ≤ path.length
  · simp only [h, if_true, true_and]
    exact str_find_from_eq_start pat (path.drop pos) pos
  · simp [h]

theorem find_device_from_path_none (m : root_paths_t) (path : Str)
    (h : ∀ device ∈ m, ¬ device.1 <+: path) : find_device_from_path m path = none := by
  unfold find_device_from_path
  have : m.find? (fun device => std_equal device.1 path) = none := by
    rw [List.find?_eq_none]
    intro device hd hp
    exact h device hd ((std_equal_iff_isPrefix _ _).1 hp)
  rw [this]
  rfl

theorem map_find_first {β : Type} (before after : List (Str × β)) (k : Str) (v : β)
    (h : ∀ e ∈ before, e.1 ≠ k) : map_find (before ++ (k, v) :: after) k = some v := by
  induction before with
  | nil => simp [map_find]
  | cons e before ih =>
    obtain ⟨k1, v1⟩ := e
    have h1 : k1 ≠ k := h (k1, v1) (by simp)
    have := ih (fun e he => h e (by simp [he]))
    simp [map_find, h1, this]

/-- C9. `Storage::build_url_for_path`, root-directory case: let `D` be the device
matched for the path (the first entry of the device table, in map order, whose
name the path starts with), let its root map be non-empty with `(name, url)` its
first entry whose name occurs in the path immediately after `D`, and let the
path be `D ++ name ++ "/" ++ rest`. Then the call returns
`storage_root ++ pseudo_url_encode(D) ++ url ++ pseudo_url_encode(rest)`, the
stored URL component verbatim and only the remainder encoded, and leaves the
`Storage` as it was. -/
theorem build_url_root_directory (env : Env) (st : Storage) (D : Str)
    (before after : root_paths_t) (dirs pre post : List NameUrlTuple)
    (name url rest path : Str)
    (htable : st.m_root_paths = before ++ (D, dirs) :: after)
    (hbefore : ∀ device ∈ before, ¬ device.1 <+: path)
    (hdirs : dirs = pre ++ (name, url) :: post)
    (hpre : ∀ dir ∈ pre, ¬ dir.1 <+: path.drop D.length)
    (hpath : path = D ++ name ++ "/".toList ++ rest) :
    build_url_for_path env st path =
      (.ok (st.m_storage_root ++ pseudo_url_encode D ++ url ++ pseudo_url_encode rest), st) := by
  have hD : D <+: path := by
    rw [hpath]
    exact ⟨name ++ "/".toList ++ rest, by simp⟩
  have hne : path ≠ [] := by
    rw [hpath]
    simp
  have hneD : path ≠ D := by
    intro h
    have := congrArg List.length h
    rw [hpath] at this
    simp at this
  have hdev : find_device_from_path st.m_root_paths path = some D := by
    unfold find_device_from_path
    rw [htable, find?_first_match _ before after (D, dirs)
      (fun e he => by
        have := hbefore e he
        rw [← std_equal_iff_isPrefix] at this
        simpa using this)
      ((std_equal_iff_isPrefix _ _).2 hD)]
    rfl
  have hmap : map_find st.m_root_paths D = some dirs := by
    rw [htable]
    apply map_find_first
    intro e he heq
    exact hbefore e he (heq ▸ hD)
  have hnonempty : ¬ dirs = [] := by
    rw [hdirs]
    simp
  have hdrop : path.drop D.length = name ++ "/".toList ++ rest := by
    rw [hpath]
    simp
  have hfind : dirs.find? (fun dir => decide (str_find path dir.1 D.length = some D.length))
      = some (name, url) := by
    rw [hdirs]
    apply find?_first_match
    · intro e he
      have := hpre e he
      simp only [decide_eq_false_iff_not, str_find_eq_pos]
      exact fun h => this h.2
    · simp only [decide_eq_true_eq, str_find_eq_pos]
      refine ⟨hD.length_le, ?_⟩
      rw [hdrop]
      exact ⟨"/".toList ++ rest, by simp⟩
  have hsub : substr path (D.length + name.length + 1) = .ok rest := by
    unfold substr
    have hlen : D.length + name.length + 1 ≤ path.length := by
      rw [hpath]
      simp
      omega
    rw [if_pos hlen, hpath]
    congr 1
    have : D.length + name.length + 1 = (D ++ name ++ "/".toList).length := by
      simp
      omega
    rw [this, List.drop_left]
  simp only [build_url_for_path, if_neg hne, hdev, hmap, Option.getD_some, if_neg hnonempty,
    if_neg hneD, hfind, hsub]

/-- The theorem `build_url_root_directory` at the example of the specification:
`MyComputer/Documents/report.pdf` resolves to the root followed by
`MyComputer/abc123/report.pdf`. -/
theorem build_url_root_directory_witness :
    build_url_for_path (scenario_env 1024 5 6) scenario_storage
        "MyComputer/Documents/report.pdf".toList =
      (.ok (scenario_root ++ "MyComputer/abc123/report.pdf".toList), scenario_storage) :=
  build_url_root_directory (scenario_env 1024 5 6) scenario_storage "MyComputer/".toList
    [] [] [("Documents".toList, "abc123/".toList)] [] [] "Documents".toList "abc123/".toList
    "report.pdf".toList "MyComputer/Documents/report.pdf".toList
    (by decide) (by decide) (by decide) (by decide) (by decide)

/-- C10. `Storage::build_url_for_path`, unknown device: for a non-empty path that
starts with no registered device name, the call throws
`std::invalid_argument("incorrect device")` and leaves the `Storage` as it was:
no request is made and the device table is unchanged. -/
theorem build_url_unknown_device (env : Env) (st : Storage) (path : Str)
    (hne : path ≠ [])
    (hnone : ∀ device ∈ st.m_root_paths, ¬ device.1 <+: path) :
    build_url_for_path env st path =
      (.throw (.invalid_argument "incorrect device".toList), st) := by
  simp only [build_url_for_path, if_neg hne, find_device_from_path_none _ _ hnone]

/-- The theorem `build_url_unknown_device` in the scenario, at a path under a
device that is not registered. -/
theorem build_url_unknown_device_witness :
    build_url_for_path (scenario_env 1024 5 6) scenario_storage
        "OtherComputer/Documents/".toList =
      (.throw (.invalid_argument "incorrect device".toList), scenario_storage) :=
  build_url_unknown_device (scenario_env 1024 5 6) scenario_storage
    "OtherComputer/Documents/".toList (by decide) (by decide)

theorem find_device_from_path_first (m before after : root_paths_t) (D : Str)
    (dirs : List NameUrlTuple) (path : Str)
    (htable : m = before ++ (D, dirs) :: after)
    (hbefore : ∀ device ∈ before, ¬ device.1 <+: path)
    (hD : D <+: path) :
    find_device_from_path m path = some D ∧ map_find m D = some dirs := by
  constructor
  · unfold find_device_from_path
    rw [htable, find?_first_match _ before after (D, dirs)
      (fun e he => by
        have := hbefore e he
        rw [← std_equal_iff_isPrefix] at this
        simpa using this)
      ((std_equal_iff_isPrefix _ _).2 hD)]
    rfl
  · rw [htable]
    apply map_find_first
    intro e he heq
    exact hbefore e he (heq ▸ hD)

/-- What `Storage::build_url_for_path` does with a path under a discovered
device `D` in which no root-directory name of `D` follows `D`: the `throw` of
"malformed path" is guarded by `path == device_name`, which is false here, so
the unmatched `dir_iter` is dereferenced. -/
theorem build_url_no_root_directory (env : Env) (st : Storage) (D : Str)
    (before after : root_paths_t) (dirs : List NameUrlTuple) (path : Str)
    (htable : st.m_root_paths = before ++ (D, dirs) :: after)
    (hbefore : ∀ device ∈ before, ¬ device.1 <+: path)
    (hD : D <+: path) (hproper : path ≠ D)
    (hdirs : dirs ≠ [])
    (hnone : ∀ dir ∈ dirs, ¬ dir.1 <+: path.drop D.length) :
    build_url_for_path env st path = (.throw .undefined, st) := by
  obtain ⟨hdev, hmap⟩ := find_device_from_path_first _ before after D dirs path htable hbefore hD
  have hne : path ≠ [] := by
    intro h
    rw [h] at hD hproper
    exact hproper (List.prefix_nil.1 hD).symm
  have hfind : dirs.find? (fun dir => decide (str_find path dir.1 D.length = some D.length))
      = none := by
    rw [List.find?_eq_none]
    intro dir hdir
    simp only [decide_eq_true_eq, str_find_eq_pos]
    exact fun h => hnone dir hdir h.2
  simp only [build_url_for_path, if_neg hne, hdev, hmap, Option.getD_some, if_neg hdirs,
    if_neg hproper, hfind]

/-- C11. `Storage::build_url_for_path` on a path with no matching root
directory: in the scenario the device `MyComputer/` is discovered with the
single root directory `Documents`; the path `MyComputer/Pictures/a.png` has the
device name as a proper prefix and `Documents` does not follow it, yet the call
does not throw `std::invalid_argument("malformed path")`: it goes on to
dereference the end iterator. -/
theorem build_url_malformed_path_not_thrown :
    find_device_from_path scenario_storage.m_root_paths "MyComputer/Pictures/a.png".toList
      = some "MyComputer/".toList
    ∧ map_find scenario_storage.m_root_paths "MyComputer/".toList
      = some [("Documents".toList, "abc123/".toList)]
    ∧ "MyComputer/Pictures/a.png".toList ≠ "MyComputer/".toList
    ∧ ¬ "Documents".toList <+: "MyComputer/Pictures/a.png".toList.drop "MyComputer/".toList.length
    ∧ build_url_for_path (scenario_env 1024 5 6) scenario_storage
        "MyComputer/Pictures/a.png".toList = (.throw .undefined, scenario_storage)
    ∧ build_url_for_path (scenario_env 1024 5 6) scenario_storage
        "MyComputer/Pictures/a.png".toList
      ≠ (.throw (.invalid_argument "malformed path".toList), scenario_storage) := by
  decide

/-! ## pseudo_url_encode -/

theorem url_safe_of_ascii (c : Char)
    (h : ('a' ≤ c ∧ c ≤ 'z') ∨ ('A' ≤ c ∧ c ≤ 'Z') ∨ ('0' ≤ c ∧ c ≤ '9')
      ∨ c = '/' ∨ c = '.' ∨ c = '_' ∨ c = '-') : url_safe c = true := by
  simp only [url_safe, Char.isAlphanum, Char.isAlpha, Char.isUpper, Char.isLower, Char.isDigit,
    Bool.or_eq_true, Bool.and_eq_true, decide_eq_true_eq, beq_iff_eq, ge_iff_le]
  rcases h with h | h | h | h | h | h | h
  · exact Or.inl (Or.inl (Or.inl (Or.inl (Or.inl (Or.inr h)))))
  · exact Or.inl (Or.inl (Or.inl (Or.inl (Or.inl (Or.inl h)))))
  · exact Or.inl (Or.inl (Or.inl (Or.inl (Or.inr h))))
  · exact Or.inl (Or.inl (Or.inl (Or.inr h)))
  · exact Or.inl (Or.inl (Or.inr h))
  · exact Or.inl (Or.inr h)
  · exact Or.inr h

theorem pseudo_url_encode_of_safe (s : Str) (h : ∀ c ∈ s, url_safe c = true) :
    pseudo_url_encode s = s := by
  induction s with
  | nil => rfl
  | cons c s ih =>
    have hc : url_safe c = true := h c (by simp)
    have := ih (fun d hd => h d (by simp [hd]))
    simp [pseudo_url_encode, hc, this]

/-- C12. `pseudo_url_encode` is the identity on safe strings: a string made only
of ASCII letters, ASCII digits and the characters `/ . _ -` is encoded to
itself, and so is its encoding. -/
theorem pseudo_url_encode_safe_identity (s : Str)
    (hsafe : ∀ c ∈ s, ('a' ≤ c ∧ c ≤ 'z') ∨ ('A' ≤ c ∧ c ≤ 'Z') ∨ ('0' ≤ c ∧ c ≤ '9')
      ∨ c = '/' ∨ c = '.' ∨ c = '_' ∨ c = '-') :
    pseudo_url_encode s = s ∧ pseudo_url_encode (pseudo_url_encode s) = s := by
  have h := pseudo_url_encode_of_safe s (fun c hc => url_safe_of_ascii c (hsafe c hc))
  rw [h]
  exact ⟨rfl, h⟩

/-- The theorem `pseudo_url_encode_safe_identity` at the example of the
specification. -/
theorem pseudo_url_encode_safe_identity_witness :
    pseudo_url_encode "abc/def.ghi_jkl-1".toList = "abc/def.ghi_jkl-1".toList
    ∧ pseudo_url_encode (pseudo_url_encode "abc/def.ghi_jkl-1".toList)
      = "abc/def.ghi_jkl-1".toList :=
  pseudo_url_encode_safe_identity "abc/def.ghi_jkl-1".toList (by decide)

theorem hex_two_digits_low : ∀ n < 128,
    setw2_fill0 (hex_upper n)
      = [(Nat.digitChar (n / 16)).toUpper, (Nat.digitChar (n % 16)).toUpper] := by
  decide

/-- What `pseudo_url_encode` writes for an unsafe byte below 0x80: `%` and the
two uppercase hexadecimal digits of the byte. -/
theorem pseudo_url_encode_unsafe_low (c : Char) (s : Str)
    (hnotsafe : url_safe c = false) (hlow : c.toNat < 128) :
    pseudo_url_encode (c :: s)
      = '%' :: (Nat.digitChar (c.toNat / 16)).toUpper :: (Nat.digitChar (c.toNat % 16)).toUpper
          :: pseudo_url_encode s := by
  have hop : hex_operand c = c.toNat := by
    unfold hex_operand
    have : c.toNat % 256 = c.toNat := Nat.mod_eq_of_lt (by omega)
    simp only [this, if_pos hlow]
  simp [pseudo_url_encode, hnotsafe, hop, hex_two_digits_low c.toNat hlow]

set_option maxRecDepth 100000 in
theorem pseudo_url_encode_high_single : ∀ n < 256, 128 ≤ n →
    pseudo_url_encode [Char.ofNat n]
      = '%' :: "FFFFFF".toList ++
          [(Nat.digitChar (n / 16)).toUpper, (Nat.digitChar (n % 16)).toUpper] := by
  decide

/-- What `pseudo_url_encode` writes for a byte from 0x80 on: the byte is a
negative `char`, `int(c)` is sign-extended, and `%` is followed by the eight
hexadecimal digits `FFFFFF` and those of the byte. -/
theorem pseudo_url_encode_high (c : Char) (s : Str)
    (hhigh : 128 ≤ c.toNat) (hbyte : c.toNat < 256) :
    pseudo_url_encode (c :: s)
      = '%' :: "FFFFFF".toList ++
          [(Nat.digitChar (c.toNat / 16)).toUpper, (Nat.digitChar (c.toNat % 16)).toUpper]
          ++ pseudo_url_encode s := by
  have h := pseudo_url_encode_high_single c.toNat hbyte hhigh
  rw [Char.ofNat_toNat] at h
  rw [← h]
  simp [pseudo_url_encode]

/-- C13. `pseudo_url_encode` on a byte from 0x80 on: the byte 0xE9 is not safe,
and it is written as the nine characters `%FFFFFFE9`, not as `%E9`, so that the
output is 8 characters longer than the input and not 2. Unsafe bytes below
0x80 are written as claimed: a space as `%20`, a line feed as `%0A`. -/
theorem pseudo_url_encode_high_byte :
    url_safe (Char.ofNat 0xE9) = false
    ∧ pseudo_url_encode [Char.ofNat 0xE9] = "%FFFFFFE9".toList
    ∧ pseudo_url_encode [Char.ofNat 0xE9] ≠ "%E9".toList
    ∧ (pseudo_url_encode [Char.ofNat 0xE9]).length = 1 + 8
    ∧ pseudo_url_encode " ".toList = "%20".toList
    ∧ pseudo_url_encode "\n".toList = "%0A".toList := by
  decide

/-! ## sanitize_dir_path -/

theorem collapse_separators_head (s : Str) : (collapse_separators s).head? = s.head? := by
  induction s with
  | nil => rfl
  | cons c s ih =>
    unfold collapse_separators
    by_cases h : c = '/' ∧ s.head? = some '/'
    · rw [if_pos h, ih, h.2, h.1]
      rfl
    · rw [if_neg h]
      rfl

theorem collapse_separators_chain (s : Str) :
    List.Chain' (fun a b : Char => ¬ (a = '/' ∧ b = '/')) (collapse_separators s) := by
  induction s with
  | nil => exact List.chain'_nil
  | cons c s ih =>
    unfold collapse_separators
    by_cases h : c = '/' ∧ s.head? = some '/'
    · rw [if_pos h]
      exact ih
    · rw [if_neg h, List.chain'_cons']
      refine ⟨?_, ih⟩
      intro y hy hcy
      rw [collapse_separators_head] at hy
      rw [Option.mem_def] at hy
      exact h ⟨hcy.1, by rw [hy, hcy.2]⟩

theorem collapse_separators_of_chain (s : Str)
    (h : List.Chain' (fun a b : Char => ¬ (a = '/' ∧ b = '/')) s) :
    collapse_separators s = s := by
  induction s with
  | nil => rfl
  | cons c s ih =>
    rw [List.chain'_cons'] at h
    unfold collapse_separators
    have hc : ¬ (c = '/' ∧ s.head? = some '/') := by
      intro hcs
      exact h.1 '/' (by rw [Option.mem_def]; exact hcs.2) ⟨hcs.1, rfl⟩
    rw [if_neg hc, ih h.2]

theorem sanitize_dir_path_chain (p : Str) :
    List.Chain' (fun a b : Char => ¬ (a = '/' ∧ b = '/')) (sanitize_dir_path p) := by
  simp only [sanitize_dir_path]
  split
  · rename_i h
    apply List.Chain'.append (collapse_separators_chain p) (List.chain'_singleton _)
    intro x hx y hy hxy
    rw [Option.mem_def] at hx
    exact h.2 (by rw [hx, hxy.1])
  · exact collapse_separators_chain p

theorem sanitize_dir_path_getLast (p : Str) (hne : sanitize_dir_path p ≠ []) :
    (sanitize_dir_path p).getLast? = some '/' := by
  simp only [sanitize_dir_path] at hne ⊢
  split
  · simp
  · rename_i h
    by_contra hlast
    apply h
    refine ⟨?_, hlast⟩
    rw [if_neg h] at hne
    exact List.length_pos.2 hne

theorem sanitize_dir_path_fixed (q : Str) (hcol : collapse_separators q = q)
    (hlast : q.getLast? = some '/') : sanitize_dir_path q = q := by
  simp only [sanitize_dir_path, hcol, hlast, ne_eq, not_true_eq_false, and_false, if_false]

/-- C14. `sanitize_dir_path` is idempotent and canonical: for every path `p`,
normalising the result again returns it unchanged; the result has no two
consecutive separators; and, when it is not empty, it ends with a separator
that no other separator precedes. The example of the specification: `a//b`
normalises to `a/b/`. -/
theorem sanitize_dir_path_canonical (p : Str) :
    sanitize_dir_path (sanitize_dir_path p) = sanitize_dir_path p
    ∧ ¬ "//".toList <:+: sanitize_dir_path p
    ∧ (sanitize_dir_path p ≠ [] →
        (sanitize_dir_path p).getLast? = some '/'
        ∧ (sanitize_dir_path p).dropLast.getLast? ≠ some '/')
    ∧ sanitize_dir_path "a//b".toList = "a/b/".toList := by
  have hchain := sanitize_dir_path_chain p
  have hinfix : ¬ "//".toList <:+: sanitize_dir_path p := by
    intro hin
    have h2 := List.Chain'.infix hchain hin
    have h3 := (List.chain'_cons'.1 h2).1 '/' (by simp)
    exact h3 ⟨rfl, rfl⟩
  refine ⟨?_, hinfix, ?_, by decide⟩
  · have hcol := collapse_separators_of_chain _ hchain
    by_cases hne : sanitize_dir_path p = []
    · rw [hne]
      rfl
    · have hlast := sanitize_dir_path_getLast p hne
      exact sanitize_dir_path_fixed _ hcol hlast
  · intro hne
    have hlast := sanitize_dir_path_getLast p hne
    refine ⟨hlast, ?_⟩
    intro hprev
    apply hinfix
    obtain ⟨init, hinit⟩ : ∃ init, sanitize_dir_path p = init ++ ['/'] := by
      rcases List.getLast?_eq_some_iff.1 hlast with ⟨init, h⟩
      exact ⟨init, h⟩
    rw [hinit, List.dropLast_concat] at hprev
    rcases List.getLast?_eq_some_iff.1 hprev with ⟨init2, h2⟩
    rw [hinit, h2]
    exact ⟨init2, [], by simp⟩

/-! ## http_auth_creds -/

/-- What `http_auth_creds` returns, with `b` the unpadded base64 text: `Basic `,
`b` and a padding of `===` when `|b| mod 4 = 2` (`case 2` runs on into
`case 3`), of `=` when `|b| mod 4 = 3`, and none otherwise. -/
theorem http_auth_creds_padding (env : Env) (id pwd : Str) :
    http_auth_creds env id pwd =
      "Basic ".toList ++ env.encode_b64 (id ++ ":".toList ++ pwd) ++
        (if (env.encode_b64 (id ++ ":".toList ++ pwd)).length % 4 = 2 then "===".toList
         else if (env.encode_b64 (id ++ ":".toList ++ pwd)).length % 4 = 3 then "=".toList
         else []) := by
  simp only [http_auth_creds]
  split
  · simp
  · split <;> simp

/-- C15. `http_auth_creds` when `|b| mod 4 = 2`: for the user `u` with the
password `pw` the unpadded base64 text of `u:pw` is `dTpwdw`, of length 6, and
the value built is `Basic dTpwdw===`, with three `=` and not two, so that the
padded length is not a multiple of 4. The other two cases are as claimed:
`user:pass` gives 12 characters and no padding, `user:pas` gives 11 characters
and one `=`. -/
theorem http_auth_creds_remainder_two :
    base64_env.encode_b64 ("u".toList ++ ":".toList ++ "pw".toList) = "dTpwdw".toList
    ∧ "dTpwdw".toList.length % 4 = 2
    ∧ http_auth_creds base64_env "u".toList "pw".toList = "Basic dTpwdw===".toList
    ∧ http_auth_creds base64_env "u".toList "pw".toList ≠ "Basic dTpwdw==".toList
    ∧ ("dTpwdw===".toList.length % 4 ≠ 0)
    ∧ http_auth_creds base64_env "user".toList "pass".toList = "Basic dXNlcjpwYXNz".toList
    ∧ http_auth_creds base64_env "user".toList "pas".toList = "Basic dXNlcjpwYXM=".toList := by
  decide

/-! ## The requests made by load -/

theorem load_requests (env : Env) (st : Storage) (url : Str) (range : Int × Int) :
    (load env st url range).2.requests = st.requests ++ [load_request st url range] := by
  simp only [load]
  cases env.http_get st.requests (load_request st url range) with
  | none => rfl
  | some resp => by_cases h : resp.status = 401 <;> simp [h]

theorem load_root_paths (env : Env) (st : Storage) (url : Str) (range : Int × Int) :
    (load env st url range).2.m_root_paths = st.m_root_paths
    ∧ (load env st url range).2.m_storage_root = st.m_storage_root
    ∧ (load env st url range).2.m_user_creds = st.m_user_creds := by
  simp only [load]
  cases env.http_get st.requests (load_request st url range) with
  | none => exact ⟨rfl, rfl, rfl⟩
  | some resp => by_cases h : resp.status = 401 <;> simp [h]

/-- C16. Range header construction in `DownloadPolicyCppLib::load`: for every
range pair the request handed to the client, which is the one request `load`
makes, carries no `Range` header exactly when both bounds are `UNINITIALIZED`;
otherwise its headers are `Authorization` and one `Range` header whose value is
`bytes=`, the decimal of the start unless it is `UNINITIALIZED`, `-`, and the
decimal of the end unless it is `UNINITIALIZED`. Examples: `(1024, 1199)` gives
`bytes=1024-1199`, `(100, -1)` gives `bytes=100-`, `(-1, 499)` gives
`bytes=-499`. -/
theorem load_range_header (env : Env) (st : Storage) (url : Str) (range : Int × Int) :
    (load env st url range).2.requests = st.requests ++ [load_request st url range]
    ∧ (load_request st url range).url = url
    ∧ ((∀ h ∈ (load_request st url range).headers, h.1 ≠ "Range".toList)
        ↔ (range.1 = UNINITIALIZED ∧ range.2 = UNINITIALIZED))
    ∧ ((range.1 = UNINITIALIZED ∧ range.2 = UNINITIALIZED) →
        (load_request st url range).headers = [("Authorization".toList, st.m_user_creds)])
    ∧ (¬ (range.1 = UNINITIALIZED ∧ range.2 = UNINITIALIZED) →
        (load_request st url range).headers =
          [("Authorization".toList, st.m_user_creds),
           ("Range".toList,
            "bytes=".toList ++ (if range.1 = UNINITIALIZED then [] else decimal range.1)
              ++ "-".toList ++ (if range.2 = UNINITIALIZED then [] else decimal range.2))])
    ∧ range_header (1024, 1199) = some "bytes=1024-1199".toList
    ∧ range_header (100, -1) = some "bytes=100-".toList
    ∧ range_header (-1, 499) = some "bytes=-499".toList
    ∧ range_header (-1, -1) = none := by
  have hauth : "Authorization".toList ≠ "Range".toList := by decide
  have hunset : (range.1 = UNINITIALIZED ∧ range.2 = UNINITIALIZED) →
      (load_request st url range).headers = [("Authorization".toList, st.m_user_creds)] := by
    intro h
    have hcond : ¬ (range.1 ≠ UNINITIALIZED ∨ range.2 ≠ UNINITIALIZED) := by
      rw [not_or, not_not, not_not]
      exact h
    simp only [load_request, range_header, if_neg hcond]
  have hset : ¬ (range.1 = UNINITIALIZED ∧ range.2 = UNINITIALIZED) →
      (load_request st url range).headers =
        [("Authorization".toList, st.m_user_creds),
         ("Range".toList,
          "bytes=".toList ++ (if range.1 = UNINITIALIZED then [] else decimal range.1)
            ++ "-".toList ++ (if range.2 = UNINITIALIZED then [] else decimal range.2))] := by
    intro h
    have hcond : range.1 ≠ UNINITIALIZED ∨ range.2 ≠ UNINITIALIZED := by
      by_contra hc
      rw [not_or, not_not, not_not] at hc
      exact h hc
    simp only [load_request, range_header, if_pos hcond]
    by_cases h1 : range.1 = UNINITIALIZED <;> by_cases h2 : range.2 = UNINITIALIZED <;>
      simp [h1, h2]
  refine ⟨load_requests env st url range, rfl, ?_, hunset, hset, by decide, by decide,
    by decide, by decide⟩
  by_cases h : range.1 = UNINITIALIZED ∧ range.2 = UNINITIALIZED
  · rw [hunset h]
    simp only [h, and_self, iff_true]
    intro x hx
    rw [List.mem_singleton.1 hx]
    exact hauth
  · rw [hset h]
    simp only [h, iff_false, not_forall]
    exact ⟨_, List.mem_cons_of_mem _ (List.mem_singleton.2 rfl), fun hh => hh rfl⟩

/-! ## The getattr callback -/

/-- A miss on a directory under no registered device: `Storage::ls` throws
`std::invalid_argument("incorrect device")` and so does `get_dir_data`. -/
theorem get_dir_data_unknown_device (env : Env) (fs : SoakFS) (dir : Str)
    (hmiss : map_find fs.m_data (cache_key dir) = none)
    (hne : sanitize_dir_path (cache_key dir) ≠ [])
    (hnone : ∀ device ∈ fs.m_storage.m_root_paths,
      ¬ device.1 <+: sanitize_dir_path (cache_key dir)) :
    (get_dir_data env fs dir).1 = .throw (.invalid_argument "incorrect device".toList) := by
  have hb : build_url_for_path env
      { fs.m_storage with calls := fs.m_storage.calls ++ [Call.ls (cache_key dir)] }
      (sanitize_dir_path (cache_key dir))
      = (.throw (.invalid_argument "incorrect device".toList),
         { fs.m_storage with calls := fs.m_storage.calls ++ [Call.ls (cache_key dir)] }) := by
    simp only [build_url_for_path, if_neg hne, find_device_from_path_none _ _ hnone]
  simp only [get_dir_data, hmiss, ls, hb]

theorem sanitize_dir_path_ne_nil (p : Str) (h : p ≠ []) : sanitize_dir_path p ≠ [] := by
  have hcol : collapse_separators p ≠ [] := by
    intro hc
    have hhead := collapse_separators_head p
    rw [hc] at hhead
    cases p with
    | nil => exact h rfl
    | cons c p => cases hhead
  simp only [sanitize_dir_path]
  split
  · simp
  · exact hcol

/-- C17, as amended. The `getattr` callback on a path other than `/` that does
not resolve. (1) When the parent listing is obtained, and the leaf, taken
without a final separator, is the start of no subdirectory name of it and the
leaf is the name of no file entry of it, `soakfs_getattr` returns `-ENOENT`.
(2) When the parent directory is not cached, is not the mount root (its path
is not empty once the leading separator is stripped) and no registered device
name is the start of its normalised path, `getattr` throws
`std::invalid_argument("incorrect device")` and `soakfs_getattr` returns the
generic `-1` of its `catch (...)`. -/
theorem soakfs_getattr_unresolved (env : Env) (fs : SoakFS) (path : Str)
    (hroot : path ≠ "/".toList) :
    (∀ data fs1, get_dir_data env fs (env.parent_path path) = (.ok data, fs1) →
      (∀ d ∈ data.1, ¬ filename_stem (env.filename path) <+: d) →
      (∀ f ∈ data.2, f.name ≠ env.filename path) →
      soakfs_getattr env fs path = (.ok (-ENOENT), Stat.zero, fs1))
    ∧ (map_find fs.m_data (cache_key (env.parent_path path)) = none →
        cache_key (env.parent_path path) ≠ [] →
        (∀ device ∈ fs.m_storage.m_root_paths,
          ¬ device.1 <+: sanitize_dir_path (cache_key (env.parent_path path))) →
        (getattr env fs path).1 = .throw (.invalid_argument "incorrect device".toList)
        ∧ (soakfs_getattr env fs path).1 = .ok (-1)) := by
  constructor
  · intro data fs1 hls hdirs hfiles
    have hnodir : data.1.find? (fun curr_name =>
        std_equal (filename_stem (env.filename path)) curr_name) = none := by
      rw [List.find?_eq_none]
      intro d hd hp
      exact hdirs d hd ((std_equal_iff_isPrefix _ _).1 hp)
    have hnofile : data.2.find? (fun g => decide (env.filename path = g.name)) = none := by
      rw [List.find?_eq_none]
      intro f hf hp
      simp only [decide_eq_true_eq] at hp
      exact hfiles f hf hp.symm
    simp only [soakfs_getattr, getattr, if_neg hroot, hls, hnodir, hnofile, catch_all]
  · intro hmiss hkey hnone
    have h := get_dir_data_unknown_device env fs (env.parent_path path) hmiss
      (sanitize_dir_path_ne_nil _ hkey) hnone
    rcases hg : get_dir_data env fs (env.parent_path path) with ⟨r, fs1⟩
    rw [hg] at h
    simp only at h
    subst h
    simp only [soakfs_getattr, getattr, if_neg hroot, hg, catch_all, and_self]

/-- The theorem `soakfs_getattr_unresolved` in the scenario: `/MyComputer/Nope`
gives `-ENOENT`; so does `/Nope` on the constructed adapter, whose parent is the
mount root and is listed from the root document; and
`/OtherComputer/Documents/x`, under a device that is not registered, gives
`-1`. -/
theorem soakfs_getattr_unresolved_witness :
    (soakfs_getattr (scenario_env 1024 5 6) (scenario_fs 1024 5 6)
        "/MyComputer/Nope".toList).1 = .ok (-ENOENT)
    ∧ (soakfs_getattr (scenario_env 1024 5 6) scenario_fresh "/Nope".toList).1
        = .ok (-ENOENT)
    ∧ (soakfs_getattr (scenario_env 1024 5 6) (scenario_fs 1024 5 6)
        "/OtherComputer/Documents/x".toList).1 = .ok (-1) :=
  ⟨congrArg Prod.fst
      ((soakfs_getattr_unresolved (scenario_env 1024 5 6) (scenario_fs 1024 5 6)
        "/MyComputer/Nope".toList (by decide)).1 (["Documents".toList], [])
        (scenario_fs 1024 5 6) (by decide) (by decide) (by decide)),
   congrArg Prod.fst
      ((soakfs_getattr_unresolved (scenario_env 1024 5 6) scenario_fresh
        "/Nope".toList (by decide)).1 (["MyComputer".toList], [])
        (get_dir_data (scenario_env 1024 5 6) scenario_fresh "/".toList).2
        (by decide) (by decide) (by decide)),
   ((soakfs_getattr_unresolved (scenario_env 1024 5 6) (scenario_fs 1024 5 6)
        "/OtherComputer/Documents/x".toList (by decide)).2 (by decide) (by decide)
        (by decide)).2⟩

/-- C17, as stated, fails. In the scenario the path `/OtherComputer/Documents/x`
is not `/` and does not resolve: its device is not registered and `getattr`
throws `std::invalid_argument("incorrect device")`. The callback
`soakfs_getattr` returns `-1`, not `-ENOENT`. -/
theorem soakfs_getattr_unknown_device_counterexample :
    (∀ device ∈ (scenario_fs 1024 5 6).m_storage.m_root_paths,
        ¬ device.1 <+: "OtherComputer/Documents/".toList)
    ∧ (getattr (scenario_env 1024 5 6) (scenario_fs 1024 5 6)
        "/OtherComputer/Documents/x".toList).1
      = .throw (.invalid_argument "incorrect device".toList)
    ∧ (soakfs_getattr (scenario_env 1024 5 6) (scenario_fs 1024 5 6)
        "/OtherComputer/Documents/x".toList).1 = .ok (-1)
    ∧ (soakfs_getattr (scenario_env 1024 5 6) (scenario_fs 1024 5 6)
        "/OtherComputer/Documents/x".toList).1 ≠ .ok (-ENOENT) := by
  decide

/-! ## The end-to-end scenario -/

theorem wrap64_natCast (n : Nat) (h : n < 2 ^ 64) : wrap64 (n : Int) = n := by
  unfold wrap64
  omega

/-- C18. The end-to-end scenario over the canned transport: the root document
lists the device `MyComputer`, the device document lists the root directory
`("Documents", "abc123/")`, and the document at `root ++ "MyComputer/abc123/"`
lists the one file `report.pdf` of size 1024 with ctime `T0` and mtime `T1`. The
adapter is constructed, and on it `getattr("/MyComputer/Documents/report.pdf")`
returns 0 with a regular-file descriptor of size 1024, ctime `T0` and mtime
`T1`; `readdir("/MyComputer/Documents/")` returns 0 and yields exactly `.`, `..`
and `report.pdf`; `getattr("/MyComputer/Nope")` returns `-ENOENT`. -/
theorem end_to_end_scenario (T0 T1 : Nat) (h0 : T0 < 2 ^ 64) (h1 : T1 < 2 ^ 64) :
    (SoakFS.new (scenario_env 1024 T0 T1) "user".toList "pass".toList).1 = .ok ()
    ∧ (scenario_mount T0 T1).m_storage.m_root_paths = [("MyComputer/".toList, [])]
    ∧ (getattr (scenario_env 1024 T0 T1) (scenario_mount T0 T1)
        "/MyComputer/Documents/report.pdf".toList).1 = .ok 0
    ∧ (getattr (scenario_env 1024 T0 T1) (scenario_mount T0 T1)
        "/MyComputer/Documents/report.pdf".toList).2.1
      = { Stat.zero with st_mode := S_IFREG ||| 0o444, st_nlink := 1, st_size := 1024,
                         st_ctime := T0, st_mtime := T1 }
    ∧ (readdir (scenario_env 1024 T0 T1) (scenario_mount T0 T1)
        "/MyComputer/Documents/".toList).1 = .ok 0
    ∧ (readdir (scenario_env 1024 T0 T1) (scenario_mount T0 T1)
        "/MyComputer/Documents/".toList).2.1
      = [".".toList, "..".toList, "report.pdf".toList]
    ∧ (getattr (scenario_env 1024 T0 T1) (scenario_mount T0 T1)
        "/MyComputer/Nope".toList).1 = .ok (-ENOENT) := by
  have hstat : (getattr (scenario_env 1024 T0 T1) (scenario_mount T0 T1)
        "/MyComputer/Documents/report.pdf".toList).2.1
      = { Stat.zero with st_mode := S_IFREG ||| 0o444, st_nlink := 1, st_size := 1024,
                         st_ctime := wrap64 (T0 : Int), st_mtime := wrap64 (T1 : Int) } := rfl
  rw [wrap64_natCast T0 h0, wrap64_natCast T1 h1] at hstat
  exact ⟨rfl, rfl, rfl, hstat, rfl, rfl, rfl⟩

/-- The theorem `end_to_end_scenario` at the times 5 and 6, and the same three
calls made one after the other on one adapter. -/
theorem end_to_end_scenario_witness :
    ((getattr (scenario_env 1024 5 6) (scenario_mount 5 6)
        "/MyComputer/Documents/report.pdf".toList).2.1
      = { Stat.zero with st_mode := S_IFREG ||| 0o444, st_nlink := 1, st_size := 1024,
                         st_ctime := 5, st_mtime := 6 }
     ∧ (readdir (scenario_env 1024 5 6) (scenario_mount 5 6)
        "/MyComputer/Documents/".toList).2.1
      = [".".toList, "..".toList, "report.pdf".toList]
     ∧ (getattr (scenario_env 1024 5 6) (scenario_mount 5 6)
        "/MyComputer/Nope".toList).1 = .ok (-ENOENT))
    ∧ (readdir (scenario_env 1024 5 6)
        (getattr (scenario_env 1024 5 6) (scenario_mount 5 6)
          "/MyComputer/Documents/report.pdf".toList).2.2
        "/MyComputer/Documents/".toList).2.1
      = [".".toList, "..".toList, "report.pdf".toList]
    ∧ (getattr (scenario_env 1024 5 6)
        (readdir (scenario_env 1024 5 6)
          (getattr (scenario_env 1024 5 6) (scenario_mount 5 6)
            "/MyComputer/Documents/report.pdf".toList).2.2
          "/MyComputer/Documents/".toList).2.2
        "/MyComputer/Nope".toList).1 = .ok (-ENOENT) :=
  have h := end_to_end_scenario 5 6 (by decide) (by decide)
  ⟨⟨h.2.2.2.1, h.2.2.2.2.2.1, h.2.2.2.2.2.2⟩, by decide, by decide⟩

/-! ## Device discovery -/

theorem mem_keys_map_set {β : Type} (m : List (Str × β)) (k0 k : Str) (v : β) :
    k ∈ (map_set m k0 v).map Prod.fst ↔ k = k0 ∨ k ∈ m.map Prod.fst := by
  induction m with
  | nil =>
    simp only [map_set, List.map_cons, List.map_nil, List.mem_cons]
  | cons e m ih =>
    obtain ⟨k1, v1⟩ := e
    unfold map_set
    by_cases h1 : k1 = k0
    · rw [if_pos h1, h1]
      simp only [List.map_cons, List.mem_cons]
      constructor
      · rintro (h | h)
        · exact Or.inl h
        · exact Or.inr (Or.inr h)
      · rintro (h | h | h)
        · exact Or.inl h
        · exact Or.inl h
        · exact Or.inr h
    · rw [if_neg h1]
      by_cases h2 : str_lt k0 k1 = true
      · rw [if_pos h2]
        simp only [List.map_cons, List.mem_cons]
      · rw [if_neg h2]
        simp only [List.map_cons, List.mem_cons, ih]
        constructor
        · rintro (h | h | h)
          · exact Or.inr (Or.inl h)
          · exact Or.inl h
          · exact Or.inr (Or.inr h)
        · rintro (h | h | h)
          · exact Or.inr (Or.inl h)
          · exact Or.inl h
          · exact Or.inr (Or.inr h)

theorem only_changes_refl (device : Str) (m : root_paths_t) : only_changes device m m :=
  ⟨fun _ _ => rfl, fun _ h => h, fun _ h => Or.inr h⟩

theorem only_changes_map_set (device : Str) (m : root_paths_t) (v : List NameUrlTuple) :
    only_changes device m (map_set m device v) := by
  refine ⟨fun k hk => map_find_map_set_ne m device k v hk, ?_, ?_⟩
  · intro k hk
    exact (mem_keys_map_set m device k v).2 (Or.inr hk)
  · intro k hk
    exact (mem_keys_map_set m device k v).1 hk

theorem only_changes_map_touch (device : Str) (m : root_paths_t) :
    only_changes device m (map_touch [] m device) := by
  unfold map_touch
  cases map_find m device with
  | some v => exact only_changes_refl device m
  | none => exact only_changes_map_set device m []

theorem init_root_paths_devices_names (env : Env) (items : List JSONNode) :
    ∀ m : root_paths_t, (∀ k ∈ m.map Prod.fst, k.getLast? = some '/') →
      ∀ k ∈ (init_root_paths_devices env items m).2.map Prod.fst, k.getLast? = some '/' := by
  induction items with
  | nil =>
    intro m hm
    exact hm
  | cons dev rest ih =>
    intro m hm
    unfold init_root_paths_devices
    split
    · exact hm
    · split
      · split
        · exact hm
        · split
          · exact hm
          · rename_i name _
            dsimp only
            split
            · exact hm
            · apply ih
              intro k hk
              rcases (only_changes_map_touch (name.as_string ++ ['/']) m).2.2 k hk with h | h
              · rw [h]
                simp
              · exact hm k h
      · exact ih m hm

theorem init_root_paths_members_names (env : Env) (items : List JSONNode) :
    ∀ m : root_paths_t, (∀ k ∈ m.map Prod.fst, k.getLast? = some '/') →
      ∀ k ∈ (init_root_paths_members env items m).2.map Prod.fst, k.getLast? = some '/' := by
  induction items with
  | nil =>
    intro m hm
    exact hm
  | cons metadata rest ih =>
    intro m hm
    unfold init_root_paths_members
    split
    · exact ih m hm
    · split
      · exact hm
      · have h := init_root_paths_devices_names env metadata.children m hm
        split
        · rename_i e m1 heq
          rw [heq] at h
          exact h
        · rename_i u m1 heq
          rw [heq] at h
          exact ih m1 h

theorem init_root_paths_names (env : Env) (st : Storage)
    (hnames : ∀ k ∈ st.m_root_paths.map Prod.fst, k.getLast? = some '/') :
    ∀ k ∈ (init_root_paths env st).2.m_root_paths.map Prod.fst, k.getLast? = some '/' := by
  simp only [init_root_paths]
  have htab := (load_root_paths env st st.m_storage_root no_range).1
  rcases hl : load env st st.m_storage_root no_range with ⟨r, st1⟩
  rw [hl] at htab
  simp only at htab
  cases r with
  | throw e =>
    simp only [htab]
    exact hnames
  | ok data =>
    simp only
    cases env.parse data with
    | none =>
      simp only [htab]
      exact hnames
    | some n =>
      simp only [htab]
      exact init_root_paths_members_names env n.children st.m_root_paths hnames

/-- Every device name registered by the constructor of `Storage` ends in the
separator (soakfs_api.hpp:191). -/
theorem storage_new_names (env : Env) (id pwd : Str) :
    ∀ k ∈ (Storage.new env id pwd).2.m_root_paths.map Prod.fst, k.getLast? = some '/' := by
  unfold Storage.new
  apply init_root_paths_names
  intro k hk
  cases hk

/-- A miss of `get_dir_data` invokes `Storage::ls` with the key, whatever the
outcome. -/
theorem get_dir_data_miss_calls (env : Env) (fs : SoakFS) (dir : Str)
    (h : map_find fs.m_data (cache_key dir) = none) :
    (get_dir_data env fs dir).2.m_storage.calls
      = fs.m_storage.calls ++ [Call.ls (cache_key dir)] := by
  simp only [get_dir_data, h]
  have hc := ls_calls env fs.m_storage (cache_key dir)
  rcases hl : ls env fs.m_storage (cache_key dir) with ⟨r, st⟩
  rw [hl] at hc
  cases r with
  | ok data => exact hc
  | throw e => exact hc

/-- C20, as amended. The directory cache is keyed by the path without its
leading separator, and by nothing more normalised than that. After a successful
`get_dir_data(p)`, a `get_dir_data(q)` for a path `q` with the same key returns
the same listing and leaves the adapter as it was, so that it invokes and
requests nothing; for a path `q` with another key that was not cached before,
it invokes `Storage::ls` again. -/
theorem get_dir_data_keyed_by_cache_key (env : Env) (fs fs1 : SoakFS) (p q : Str)
    (data : LsData)
    (hp : get_dir_data env fs p = (.ok data, fs1)) :
    (cache_key q = cache_key p → get_dir_data env fs1 q = (.ok data, fs1))
    ∧ (cache_key q ≠ cache_key p → map_find fs.m_data (cache_key q) = none →
        (get_dir_data env fs1 q).2.m_storage.calls
          = fs1.m_storage.calls ++ [Call.ls (cache_key q)]) := by
  have hcached := get_dir_data_cached env fs fs1 p data hp
  constructor
  · intro hkey
    rw [← hkey] at hcached
    exact get_dir_data_hit env fs1 q data hcached
  · intro hkey hmiss
    apply get_dir_data_miss_calls
    cases hc : map_find fs.m_data (cache_key p) with
    | some data2 =>
      rw [get_dir_data_hit env fs p data2 hc] at hp
      simp only [Prod.mk.injEq, Res.ok.injEq] at hp
      rw [← hp.2]
      exact hmiss
    | none =>
      rw [(get_dir_data_miss env fs fs1 p data hc hp).2,
        map_find_map_set_ne _ _ _ _ hkey]
      exact hmiss

/-- The theorem `get_dir_data_keyed_by_cache_key` on the constructed adapter of
the scenario: after `/MyComputer/Documents`, the path `MyComputer/Documents`,
which has the same key, is served from the cache. -/
theorem get_dir_data_keyed_by_cache_key_witness :
    get_dir_data (scenario_env 1024 5 6)
        (get_dir_data (scenario_env 1024 5 6) scenario_fresh "/MyComputer/Documents".toList).2
        "MyComputer/Documents".toList
      = (.ok ([], [scenario_file 1024 5 6]),
         (get_dir_data (scenario_env 1024 5 6) scenario_fresh "/MyComputer/Documents".toList).2) :=
  (get_dir_data_keyed_by_cache_key (scenario_env 1024 5 6) scenario_fresh
    (get_dir_data (scenario_env 1024 5 6) scenario_fresh "/MyComputer/Documents".toList).2
    "/MyComputer/Documents".toList "MyComputer/Documents".toList
    ([], [scenario_file 1024 5 6]) (by decide)).1 (by decide)

/-- C20, as stated, fails. In the scenario `/MyComputer/Documents` and
`/MyComputer/Documents/` normalise to the same directory path,
`MyComputer/Documents/`. On the constructed adapter `get_dir_data` succeeds for
the first; the second is then not in the cache, whose only key is
`MyComputer/Documents`, and `get_dir_data` invokes `Storage::ls` for it and
makes one more request. -/
theorem get_dir_data_trailing_separator_counterexample :
    sanitize_dir_path (cache_key "/MyComputer/Documents".toList)
      = sanitize_dir_path (cache_key "/MyComputer/Documents/".toList)
    ∧ (get_dir_data (scenario_env 1024 5 6) scenario_fresh
        "/MyComputer/Documents".toList).1 = .ok ([], [scenario_file 1024 5 6])
    ∧ (get_dir_data (scenario_env 1024 5 6) scenario_fresh
        "/MyComputer/Documents".toList).2.m_data.map Prod.fst = ["MyComputer/Documents".toList]
    ∧ (get_dir_data (scenario_env 1024 5 6)
        (get_dir_data (scenario_env 1024 5 6) scenario_fresh "/MyComputer/Documents".toList).2
        "/MyComputer/Documents/".toList).2.m_storage.calls
      = (get_dir_data (scenario_env 1024 5 6) scenario_fresh
          "/MyComputer/Documents".toList).2.m_storage.calls
        ++ [Call.ls "MyComputer/Documents/".toList]
    ∧ (get_dir_data (scenario_env 1024 5 6)
        (get_dir_data (scenario_env 1024 5 6) scenario_fresh "/MyComputer/Documents".toList).2
        "/MyComputer/Documents/".toList).2.m_storage.requests.length
      = (get_dir_data (scenario_env 1024 5 6) scenario_fresh
          "/MyComputer/Documents".toList).2.m_storage.requests.length + 1 := by
  decide

/-! ## Empty reads at offset 0 -/

theorem read_size_zero (requested_size size : Nat) (h : requested_size = 0 ∨ size = 0) :
    read_size requested_size size 0 = 0 := by
  unfold read_size
  have hmin : min requested_size (wrap64 ((size : Int) - 0)) = 0 := by
    rcases h with h | h
    · rw [h]
      exact Nat.zero_min _
    · rw [h]
      exact Nat.min_eq_right (Nat.zero_le _)
  rw [hmin]
  rfl

/-- C22. Sentinel collision on empty reads at offset 0: for an existing file `f`
and a read at offset 0 with capacity 0 or on a file of size 0, `readSize` is 0,
`SoakFS::read` hands `download` the range pair `(0, -1)`, whose end is the
sentinel `UNINITIALIZED`, so that the request `load` builds for any URL carries
the open-ended header `Range: bytes=0-`; that request is the one `download`
makes once the URL is resolved, and when `download` returns `read` returns 0. -/
theorem read_empty_at_offset_zero (env : Env) (fs fs1 : SoakFS) (path : Str) (f : File)
    (requested_size : Nat)
    (hf : get_file_data env fs path = (.ok f, fs1))
    (hzero : requested_size = 0 ∨ f.size = 0) :
    read_size requested_size f.size 0 = 0
    ∧ read_range requested_size f.size 0 = (0, UNINITIALIZED)
    ∧ (read env fs path requested_size 0).2.m_storage.calls
        = fs1.m_storage.calls ++ [Call.download path (0, -1)]
    ∧ (∀ (st : Storage) (url : Str),
        (load_request st url (0, -1)).headers
          = [("Authorization".toList, st.m_user_creds), ("Range".toList, "bytes=0-".toList)])
    ∧ (∀ url st1,
        build_url_for_path env
            { fs1.m_storage with calls := fs1.m_storage.calls ++ [Call.download path (0, -1)] }
            (sanitize_file_path path) = (.ok url, st1) →
        (read env fs path requested_size 0).2.m_storage.requests
          = st1.requests ++ [load_request st1 url (0, -1)])
    ∧ (∀ body st, download env fs1.m_storage path (0, -1) = (.ok body, st) →
        read env fs path requested_size 0 = (.ok 0, { fs1 with m_storage := st })) := by
  have hrs := read_size_zero requested_size f.size hzero
  have hrange : read_range requested_size f.size 0 = (0, -1) := by
    unfold read_range
    rw [hrs]
    rfl
  have hret : to_int (read_size requested_size f.size 0) = 0 := by
    rw [hrs]
    rfl
  have hcalls := download_calls env fs1.m_storage path (0, -1)
  have hstate : (read env fs path requested_size 0).2.m_storage
      = (download env fs1.m_storage path (0, -1)).2 := by
    simp only [read, hf, hrange]
    rcases hd : download env fs1.m_storage path (0, -1) with ⟨r, st⟩
    cases r <;> rfl
  refine ⟨hrs, hrange, ?_, ?_, ?_, ?_⟩
  · rw [hstate]
    exact hcalls
  · intro st url
    rfl
  · intro url st1 hb
    rw [hstate]
    simp only [download, hb]
    exact load_requests env st1 url (0, -1)
  · intro body st hd
    simp only [read, hf, hrange, hd, hret]

/-- The theorem `read_empty_at_offset_zero` in the scenario, on a file of size
1200 read with capacity 0: `download` is called with `(0, -1)`, the one request
made is for the file with the header `Range: bytes=0-`, and `read` returns 0. -/
theorem read_empty_at_offset_zero_witness :
    (read (scenario_env 1200 5 6) (scenario_fs 1200 5 6)
        "/MyComputer/Documents/report.pdf".toList 0 0).2.m_storage.calls
      = [Call.download "/MyComputer/Documents/report.pdf".toList (0, -1)]
    ∧ (read (scenario_env 1200 5 6) (scenario_fs 1200 5 6)
        "/MyComputer/Documents/report.pdf".toList 0 0).2.m_storage.requests
      = [{ url := scenario_root ++ "MyComputer/abc123/report.pdf".toList,
           headers := [("Authorization".toList, "Basic dXNlcjpwYXNz".toList),
                       ("Range".toList, "bytes=0-".toList)] }]
    ∧ (read (scenario_env 1200 5 6) (scenario_fs 1200 5 6)
        "/MyComputer/Documents/report.pdf".toList 0 0).1 = .ok 0 :=
  have h := read_empty_at_offset_zero (scenario_env 1200 5 6) (scenario_fs 1200 5 6)
    (scenario_fs 1200 5 6) "/MyComputer/Documents/report.pdf".toList (scenario_file 1200 5 6) 0
    (by decide) (Or.inl rfl)
  ⟨h.2.2.1,
   h.2.2.2.2.1 (scenario_root ++ "MyComputer/abc123/report.pdf".toList)
     { scenario_storage with
       calls := [Call.download "/MyComputer/Documents/report.pdf".toList (0, -1)] }
     (by decide),
   congrArg Prod.fst (h.2.2.2.2.2 "%PDF".toList
     (download (scenario_env 1200 5 6) (scenario_fs 1200 5 6).m_storage
       "/MyComputer/Documents/report.pdf".toList (0, -1)).2 (by decide))⟩

end Soak
